import Mathlib

/-!
Verification development for the comment-classification pipeline of
`src/utils/ai_analyzer.py` (together with the label configuration in
`src/config.py`).

The Python code is shallowly embedded as executable Lean definitions:

* Python strings are Lean `String`s; the handful of string operations the
  code uses (`strip`, `lower`, `re.sub(r"\s+", " ", _)`, `replace`,
  `split`, substring tests with `in`) are implemented below over `List Char`
  so that every definition is structurally recursive and kernel-evaluable.
* The external LLM endpoint (`client.chat.completions.create`) is modelled
  as an oracle value `ApiOutcome` per call site: either a successful
  response (raw text plus optional usage record) or one of the exception
  classes the code distinguishes (`openai.RateLimitError`,
  `openai.APIError` with or without a 429/rate-limit marker in its text,
  connection/timeout errors, and any other exception).  The OpenAI client
  object is assumed to be configured (`client` is not `None`).
* Wall-clock time for the rate limiter is modelled with `ℚ` (seconds);
  `time.sleep` advances the clock by exactly the requested amount, and the
  timestamp appended after a wait is the post-sleep clock value.
* Thread-level concurrency in `analyze_all_comments` is modelled by the
  order in which a batch's completions are observed by `as_completed`:
  a `reorder` parameter permutes each batch.  Logging, progress callbacks
  and the cancellation callback (not used by the claims considered here)
  are omitted; the save callback is modelled by recording the list of
  `("save", payload)` payloads and whether `("clear")` was issued.
-/

namespace AIAnalyzer

/-! ### String helpers (Python string operations over `List Char`) -/

/-- Python `str.strip()` on the character list: drop whitespace from both ends. -/
def wsStrip (l : List Char) : List Char :=
  ((l.dropWhile Char.isWhitespace).reverse.dropWhile Char.isWhitespace).reverse

/-- Python `s.strip()`. -/
def stripStr (s : String) : String := ⟨wsStrip s.data⟩

/-- Helper for `re.sub(r"\s+", " ", s)`: the Boolean records whether the
previous character was whitespace (so a run collapses to one space). -/
def collapseGo : Bool → List Char → List Char
  | _, [] => []
  | prevWs, c :: rest =>
    if c.isWhitespace then
      if prevWs then collapseGo true rest
      else ' ' :: collapseGo true rest
    else c :: collapseGo false rest

/-- Python `re.sub(r"\s+", " ", s)`: collapse every whitespace run to a single space. -/
def collapseWs (s : String) : String := ⟨collapseGo false s.data⟩

/-- Python `s.lower()` (the labels are Japanese, so this only affects ASCII letters). -/
def lowerStr (s : String) : String := ⟨s.data.map Char.toLower⟩

/-- The chain `s.replace('。','').replace('、','').replace('.','').replace(',','')`. -/
def stripPunct (s : String) : String :=
  ⟨s.data.filter (fun c => !(c == '。' || c == '、' || c == '.' || c == ','))⟩

/-- Does the needle occur at the front of the haystack? -/
def frontMatch : List Char → List Char → Bool
  | [], _ => true
  | _ :: _, [] => false
  | a :: as, b :: bs => a == b && frontMatch as bs

/-- Does the needle occur contiguously anywhere in the haystack? -/
def subOf (n : List Char) : List Char → Bool
  | [] => frontMatch n []
  | c :: rest => frontMatch n (c :: rest) || subOf n rest

/-- Python `needle in hay` (substring containment). -/
def strContains (hay needle : String) : Bool := subOf needle.data hay.data

/-- Python `s.split(sep)` for a single-character separator. -/
def splitChar (sep : Char) : List Char → List (List Char)
  | [] => [[]]
  | c :: rest =>
    let r := splitChar sep rest
    if c == sep then [] :: r
    else
      match r with
      | [] => [[c]]
      | h :: t => (c :: h) :: t

/-- Python `s.split(sep, 1)` when the separator occurs: the text before and
after the first occurrence; `none` when the separator is absent (in which
case the code sees `len(parts) == 1` and moves on). -/
def splitFirst (sep : Char) : List Char → Option (List Char × List Char)
  | [] => none
  | c :: rest =>
    if c == sep then some ([], rest)
    else
      match splitFirst sep rest with
      | none => none
      | some (pre, post) => some (c :: pre, post)

/-! ### Configuration (`src/config.py`) -/

/-- `COMPANY_NAME` from `config.py`. -/
def COMPANY_NAME : String := "Starbucks Coffee Japan"

/-- `OFFICIAL_GUEST_ID` from `config.py`. -/
def OFFICIAL_GUEST_ID : String := "555674619"

/-- `CHAT_ATTRIBUTES` from `config.py`. -/
def CHAT_ATTRIBUTES : List String :=
  ["公式コメント",
   "商品に対する質問",
   "出演者に対する質問",
   "商品に対するリアクション",
   "出演者に対するリアクション",
   "商品と出演者に対するリアクション",
   "配信に対するリアクション",
   "絵文字のみ",
   "不満の声",
   "購入検討",
   "購入報告",
   "お礼・感謝",
   "その他"]

/-- `CHAT_SENTIMENTS` from `config.py`. -/
def CHAT_SENTIMENTS : List String :=
  ["ポジティブ",
   "ややポジティブ",
   "どちらでもない",
   "ややネガティブ",
   "ネガティブ",
   "混在"]

/-! ### External call model -/

/-- The usage record attached to a successful response
(`response.usage.prompt_tokens` and friends). -/
structure TokensInfo where
  prompt_tokens : ℕ
  completion_tokens : ℕ
  total_tokens : ℕ
deriving DecidableEq, Repr

/-- The zero usage record `{"prompt_tokens": 0, "completion_tokens": 0, "total_tokens": 0}`. -/
def TokensInfo.zero : TokensInfo := ⟨0, 0, 0⟩

/-- Componentwise sum of two usage records. -/
def addTokens (a b : TokensInfo) : TokensInfo :=
  ⟨a.prompt_tokens + b.prompt_tokens,
   a.completion_tokens + b.completion_tokens,
   a.total_tokens + b.total_tokens⟩

/-- Outcome of one `client.chat.completions.create` call.

* `success raw usage`: the call returned; `raw` is
  `response.choices[0].message.content` and `usage` is the optional usage
  record (`none` models a response object without a truthy `usage`).
* `rateLimit`: the call raised `openai.RateLimitError`.
* `apiErr is429`: the call raised `openai.APIError`; the flag records
  whether `str(e)` contains `"429"` or `"rate_limit"`.
* `connErr`: the call raised `openai.APIConnectionError` or
  `openai.APITimeoutError` (whose text carries no rate-limit marker).
* `otherErr`: the call raised any other exception whose text carries no
  rate-limit marker. -/
inductive ApiOutcome
  | success (raw : String) (usage : Option TokensInfo)
  | rateLimit
  | apiErr (is429 : Bool)
  | connErr
  | otherErr
deriving DecidableEq, Repr

/-! ### Pre-classification shortcuts (shared by `analyze_comment_attribute`
and `analyze_comment_combined`) -/

/-- The test `user_type and str(user_type).strip().lower() == "moderator"`.
`none` models an absent (`None`) value. -/
def isModeratorType : Option String → Bool
  | some t => (t != "") && (lowerStr (stripStr t) == "moderator")
  | none => false

/-- The test `user_id is not None and pd.notna(user_id) and str(user_id).strip()`.
`none` models `None`/`NaN`. -/
def hasUserId : Option String → Bool
  | some u => stripStr u != ""
  | none => false

/-- The test `guest_id and str(guest_id).strip() == OFFICIAL_GUEST_ID`
(`none` models an absent or falsy `guest_id`). -/
def isOfficialGuest : Option String → Bool
  | some g => (g != "") && (stripStr g == OFFICIAL_GUEST_ID)
  | none => false

/-- The test `username and str(username).strip() == "マツキヨココカラSTAFF"`. -/
def isMatsukiyoStaff (username : String) : Bool :=
  (username != "") && (stripStr username == "マツキヨココカラSTAFF")

/-- The remapping applied whenever a resolved attribute is
`"公式コメント"`: it is kept only when the author is the configured
official account, otherwise it becomes `"絵文字のみ"` (this exact block
appears at lines 244-255, 262-273, 298-309, 627-632, 672-699, 737-748 and
776-781 of `ai_analyzer.py`). -/
def remapOfficial (username a : String) : String :=
  if a == "公式コメント" then
    if username == COMPANY_NAME then "公式コメント" else "絵文字のみ"
  else a

/-! ### `analyze_comment_sentiment` (lines 337-464) -/

/-- Response-to-label resolution of `analyze_comment_sentiment`
(lines 373-457), given the raw response text of the successful call. -/
def sentimentParse (raw : String) : String :=
  let response_cleaned := stripStr (collapseWs (stripStr raw))
  let response_lower := lowerStr response_cleaned
  -- first pass (lines 383-392): scan the whole response for a category
  let sentiment :=
    match CHAT_SENTIMENTS.find? (fun sent =>
        lowerStr sent == response_lower || sent == response_cleaned ||
        strContains response_cleaned sent ||
        strContains response_lower (lowerStr sent)) with
    | some m => m
    | none => response_cleaned  -- line 400: fall back to the raw cleaned response
  let sentiment_cleaned := stripPunct (stripStr (collapseWs sentiment))
  if sentiment_cleaned ∈ CHAT_SENTIMENTS then sentiment_cleaned
  else if sentiment ∈ CHAT_SENTIMENTS then sentiment
  else
    -- partial-match loop (lines 424-442)
    let sentiment_lower := lowerStr sentiment_cleaned
    match CHAT_SENTIMENTS.find? (fun sent =>
        lowerStr sent == sentiment_lower ||
        strContains sentiment_cleaned sent || strContains sent sentiment_cleaned ||
        strContains sentiment_lower (lowerStr sent) ||
        strContains (lowerStr sent) sentiment_lower) with
    | some m => m
    | none =>
      -- lines 449-457: default, re-validated against the configured list
      if "どちらでもない" ∈ CHAT_SENTIMENTS then "どちらでもない"
      else CHAT_SENTIMENTS.headD "どちらでもない"

/-- `analyze_comment_sentiment(comment_text)`: one external call; every
exception from the call is caught and the default label is returned
(lines 459-464).  The call itself is the supplied oracle outcome. -/
def analyze_comment_sentiment (_comment_text : String) (outcome : ApiOutcome) : String :=
  match outcome with
  | .success raw _ => sentimentParse raw
  | _ => "どちらでもない"

/-! ### `analyze_comment_attribute` (lines 133-334) -/

/-- Response-to-label resolution of `analyze_comment_attribute`
(lines 203-327), given the author name and the raw response text. -/
def attributeParse (username raw : String) : String :=
  let response_cleaned := stripStr (collapseWs (stripStr raw))
  let response_lower := lowerStr response_cleaned
  -- first pass (lines 208-232)
  let attrCand :=
    match CHAT_ATTRIBUTES.find? (fun a =>
        lowerStr a == response_lower || a == response_cleaned ||
        strContains response_cleaned a ||
        strContains response_lower (lowerStr a)) with
    | some m => m
    | none => response_cleaned  -- line 230: fall back to the raw cleaned response
  let attribute_cleaned := stripPunct (stripStr (collapseWs attrCand))
  if attribute_cleaned ∈ CHAT_ATTRIBUTES then
    remapOfficial username attribute_cleaned   -- lines 243-258
  else if attrCand ∈ CHAT_ATTRIBUTES then
    remapOfficial username attrCand            -- lines 261-276
  else
    -- partial-match loop (lines 278-312)
    let attribute_lower := lowerStr attribute_cleaned
    match CHAT_ATTRIBUTES.find? (fun a =>
        lowerStr a == attribute_lower ||
        strContains attribute_cleaned a || strContains a attribute_cleaned ||
        strContains attribute_lower (lowerStr a) ||
        strContains (lowerStr a) attribute_lower) with
    | some m => remapOfficial username m
    | none =>
      -- lines 319-327: default, re-validated against the configured list
      if "絵文字のみ" ∈ CHAT_ATTRIBUTES then "絵文字のみ"
      else CHAT_ATTRIBUTES.headD "絵文字のみ"

/-- `analyze_comment_attribute(comment_text, username, guest_id, user_type, user_id)`:
the pre-classification shortcuts (lines 149-175), then one external call
whose exceptions are all caught with the default label (lines 329-334). -/
def analyze_comment_attribute (_comment_text username : String)
    (guest_id user_type user_id : Option String) (outcome : ApiOutcome) : String :=
  if isModeratorType user_type then "公式コメント"
  else if hasUserId user_id then "公式コメント"
  else if isOfficialGuest guest_id then "公式コメント"
  else if isMatsukiyoStaff username then "公式コメント"
  else
    match outcome with
    | .success raw _ => attributeParse username raw
    | _ => "絵文字のみ"

/-! ### The retry loop of `analyze_comment_combined` (lines 526-580) -/

/-- How the retry loop around the combined call terminates.

* `ok`: an attempt succeeded (`break` at line 541).
* `raiseRateLimit`: retries exhausted on `RateLimitError` or a 429-marked
  `APIError`; the raised message contains `"レート制限"` (lines 550-552,
  562-564).
* `raiseConn`: retries exhausted on a connection/timeout error; the raised
  message (`"接続エラーが発生しました。..."`, lines 575-577) carries no
  rate-limit marker.
* `raiseOther`: a non-429 `APIError` was re-raised (line 566) or some other
  exception escaped the loop. -/
inductive RetryOutcome
  | ok (raw : String) (usage : Option TokensInfo)
  | raiseRateLimit
  | raiseConn
  | raiseOther
deriving DecidableEq, Repr

/-- One execution of `for attempt in range(max_retries)` with the current
delay, returning the loop outcome and the list of `time.sleep(retry_delay)`
durations performed.  `remaining` counts the attempts still available
including the current one (`remaining = max_retries - attempt`); the
`remaining = 0` case models falling out of the loop with
`api_response is None` (line 579-580), unreachable when `max_retries = 3`. -/
def retryGo (attempts : ℕ → ApiOutcome) : ℕ → ℕ → ℕ → RetryOutcome × List ℕ
  | 0, _, _ => (.raiseOther, [])
  | remaining + 1, attempt, retry_delay =>
    match attempts attempt with
    | .success raw u => (.ok raw u, [])
    | .rateLimit =>
      if remaining > 0 then
        let p := retryGo attempts remaining (attempt + 1) (retry_delay * 2)
        (p.1, retry_delay :: p.2)
      else (.raiseRateLimit, [])
    | .apiErr is429 =>
      if is429 then
        if remaining > 0 then
          let p := retryGo attempts remaining (attempt + 1) (retry_delay * 2)
          (p.1, retry_delay :: p.2)
        else (.raiseRateLimit, [])
      else (.raiseOther, [])
    | .connErr =>
      if remaining > 0 then
        let p := retryGo attempts remaining (attempt + 1) (retry_delay * 2)
        (p.1, retry_delay :: p.2)
      else (.raiseConn, [])
    | .otherErr => (.raiseOther, [])

/-- The retry loop with `max_retries = 3` and `retry_delay = 60` (lines 527-528).

Exception dispatch is modelled by the textual `except` clauses: connection
and timeout errors are routed to the clause of lines 567-577, which retries
them with the same backoff.  (In the `openai` v1 class hierarchy
`APIConnectionError` also subclasses `APIError`, which would route them to
the clause of lines 553-566 and re-raise them on the first failure instead;
under either routing an exhausted connection failure escapes the loop with
a message that carries no rate-limit marker, which is what the theorems
below rely on.) -/
def retryLoop (attempts : ℕ → ApiOutcome) : RetryOutcome × List ℕ :=
  retryGo attempts 3 0 60

/-! ### Response parsing of `analyze_comment_combined` (lines 603-831) -/

/-- Match the text found after a separator on an attribute line against the
configured categories (lines 620-635): exact case-insensitive match or
containment in either direction, with the official-comment remap applied. -/
def attrTextMatch (username attr_text : String) : Option String :=
  let attr_text_lower := lowerStr attr_text
  match CHAT_ATTRIBUTES.find? (fun a =>
      lowerStr a == attr_text_lower ||
      strContains attr_text a || strContains a attr_text) with
  | some a => some (remapOfficial username a)
  | none => none

/-- Match the text found after a separator on a sentiment line against the
configured categories (lines 645-655). -/
def sentTextMatch (sent_text : String) : Option String :=
  let sent_text_lower := lowerStr sent_text
  CHAT_SENTIMENTS.find? (fun s =>
      lowerStr s == sent_text_lower ||
      strContains sent_text s || strContains s sent_text)

/-- `line_cleaned.split(sep, 1)[1].strip()` with the punctuation stripped
(lines 618-621 and 643-646); `none` when the separator is absent. -/
def sepExtract (sep : Char) (line : String) : Option String :=
  match splitFirst sep line.data with
  | some (_, post) => some (stripPunct (stripStr ⟨post⟩))
  | none => none

/-- Attribute extraction from one cleaned line (lines 614-637): the line
must contain `"属性"`; the separators `':'`, `'：'`, `'='` are tried in
order until one yields a matching category. -/
def lineAttrExtract (username line : String) : Option String :=
  if strContains line "属性" then
    match (sepExtract ':' line).bind (attrTextMatch username) with
    | some a => some a
    | none =>
      match (sepExtract '：' line).bind (attrTextMatch username) with
      | some a => some a
      | none => (sepExtract '=' line).bind (attrTextMatch username)
  else none

/-- Sentiment extraction from one cleaned line (lines 639-655). -/
def lineSentExtract (line : String) : Option String :=
  if strContains line "感情" then
    match (sepExtract ':' line).bind sentTextMatch with
    | some s => some s
    | none =>
      match (sepExtract '：' line).bind sentTextMatch with
      | some s => some s
      | none => (sepExtract '=' line).bind sentTextMatch
  else none

/-- The per-line loop of lines 609-658.  Each line is cleaned
(`re.sub(r"\s+", " ", line.strip()).strip()`), and each label is only
extracted while still unset; the early `break` once both labels are set is
behaviourally equivalent to continuing with both guards false. -/
def lineScan (username : String) : List String →
    Option String × Option String → Option String × Option String
  | [], st => st
  | line :: rest, (a?, s?) =>
    let line_cleaned := stripStr (collapseWs (stripStr line))
    let a' := match a? with
      | some a => some a
      | none => lineAttrExtract username line_cleaned
    let s' := match s? with
      | some s => some s
      | none => lineSentExtract line_cleaned
    lineScan username rest (a', s')

/-- Whole-response attribute search (lines 666-703): exact match, plain
containment in either direction, or case-insensitive containment in either
direction; the first matching category wins and the official remap applies. -/
def wholeAttrSearch (username resp : String) : Option String :=
  let response_cleaned := stripStr (collapseWs resp)
  let response_lower := lowerStr response_cleaned
  (CHAT_ATTRIBUTES.find? (fun a =>
      lowerStr a == response_lower || a == response_cleaned ||
      strContains response_cleaned a || strContains a response_cleaned ||
      strContains response_lower (lowerStr a) ||
      strContains (lowerStr a) response_lower)).map (remapOfficial username)

/-- Whole-response sentiment search (lines 705-719). -/
def wholeSentSearch (resp : String) : Option String :=
  let response_cleaned := stripStr (collapseWs resp)
  let response_lower := lowerStr response_cleaned
  CHAT_SENTIMENTS.find? (fun s =>
      lowerStr s == response_lower || s == response_cleaned ||
      strContains response_cleaned s || strContains s response_cleaned ||
      strContains response_lower (lowerStr s) ||
      strContains (lowerStr s) response_lower)

/-- Final attribute validation (lines 750-786): a label outside the
configured set triggers a last substring search of the whole raw response;
on failure the default `"絵文字のみ"` is used. -/
def validateAttr (username raw a0 : String) : String :=
  if a0 ∈ CHAT_ATTRIBUTES then a0
  else
    let response_cleaned := stripStr (collapseWs (stripStr raw))
    let response_lower := lowerStr response_cleaned
    match CHAT_ATTRIBUTES.find? (fun a =>
        strContains response_cleaned a ||
        strContains response_lower (lowerStr a) ||
        strContains a response_cleaned ||
        strContains (lowerStr a) response_lower) with
    | some a => remapOfficial username a
    | none => "絵文字のみ"

/-- Final sentiment validation (lines 788-817). -/
def validateSent (raw s0 : String) : String :=
  if s0 ∈ CHAT_SENTIMENTS then s0
  else
    let response_cleaned := stripStr (collapseWs (stripStr raw))
    let response_lower := lowerStr response_cleaned
    match CHAT_SENTIMENTS.find? (fun s =>
        strContains response_cleaned s ||
        strContains response_lower (lowerStr s) ||
        strContains s response_cleaned ||
        strContains (lowerStr s) response_lower) with
    | some s => s
    | none => "どちらでもない"

/-! ### `analyze_comment_combined` (lines 467-870) -/

/-- Result of `analyze_comment_combined` as seen by its caller.

* `ok attrV sentV tokens`: a normal return.  `tokens = some t` corresponds
  to the documented 3-tuple `(attribute, sentiment, tokens_info)`;
  `tokens = none` corresponds to the branches that return a bare 2-tuple
  `(attribute, sentiment)` (lines 488 and 870), which the caller cannot
  unpack into three variables.
* `rateLimitRaise`: the distinguished rate-limit exception was raised
  (message containing `"レート制限"`). -/
inductive Analyzed
  | ok (attrV sentV : String) (tokens : Option TokensInfo)
  | rateLimitRaise
deriving DecidableEq, Repr

/-- `analyze_comment_combined(comment_text, username, guest_id, user_type, user_id)`.

Oracle parameters: `attempts n` is the outcome of the `n`-th attempt of the
combined call inside the retry loop; `attrOutcome` and `sentOutcome` are
the outcomes of the (at most one each) fallback calls made through
`analyze_comment_attribute` / `analyze_comment_sentiment`.  The OpenAI
client is assumed configured, so `analyze_comment_attribute` and
`analyze_comment_sentiment` never raise; consequently the
fallback-of-fallback handler (lines 859-870) is unreachable. -/
def analyze_comment_combined (comment_text username : String)
    (guest_id user_type user_id : Option String)
    (attempts : ℕ → ApiOutcome) (attrOutcome sentOutcome : ApiOutcome) : Analyzed :=
  if isModeratorType user_type then
    -- lines 484-488: sentiment-only call, then `return ("公式コメント", sentiment)` —
    -- a 2-tuple with NO tokens_info component, unlike all sibling branches
    .ok "公式コメント" (analyze_comment_sentiment comment_text sentOutcome) none
  else if hasUserId user_id then
    -- lines 490-499
    .ok "公式コメント" (analyze_comment_sentiment comment_text sentOutcome)
      (some TokensInfo.zero)
  else if isOfficialGuest guest_id then
    -- lines 503-510
    .ok "公式コメント" (analyze_comment_sentiment comment_text sentOutcome)
      (some TokensInfo.zero)
  else if isMatsukiyoStaff username then
    -- lines 514-518
    .ok "公式コメント" (analyze_comment_sentiment comment_text sentOutcome)
      (some TokensInfo.zero)
  else
    match retryLoop attempts with
    | (.ok raw usage, _) =>
      -- lines 603-658: line-oriented extraction
      let lines := (splitChar '\n' (stripStr raw).data).map (fun l => String.mk l)
      let st := lineScan username lines (none, none)
      -- lines 660-719: whole-response search for whichever label is missing
      let a2 := match st.1 with
        | some a => some a
        | none => wholeAttrSearch username (stripStr raw)
      let s2 := match st.2 with
        | some s => some s
        | none => wholeSentSearch (stripStr raw)
      -- lines 723-735: legacy single-label fallback calls
      let aF := match a2 with
        | some a => a
        | none => analyze_comment_attribute comment_text username guest_id none none attrOutcome
      let sF := match s2 with
        | some s => s
        | none => analyze_comment_sentiment comment_text sentOutcome
      -- lines 737-748: official-comment remap against the author name
      let aR := remapOfficial username aF
      -- lines 750-831: final validation and usage extraction
      .ok (validateAttr username raw aR) (validateSent raw sF)
        (some (usage.getD TokensInfo.zero))
    | (.raiseRateLimit, _) =>
      -- lines 845-848: the message contains "レート制限", so it is re-raised
      .rateLimitRaise
    | (.raiseConn, _) =>
      -- lines 849-858: no rate-limit marker, so the legacy two-call fallback runs
      .ok (analyze_comment_attribute comment_text username guest_id none none attrOutcome)
        (analyze_comment_sentiment comment_text sentOutcome)
        (some TokensInfo.zero)
    | (.raiseOther, _) =>
      .ok (analyze_comment_attribute comment_text username guest_id none none attrOutcome)
        (analyze_comment_sentiment comment_text sentOutcome)
        (some TokensInfo.zero)

/-! ### `RateLimitMonitor` (lines 23-59)

Time is modelled with `ℚ` (seconds).  One `wait_if_needed` call takes the
current clock value `now` and the recorded timestamp queue, and returns the
timestamp it appends (the post-sleep clock when it slept) together with the
new queue.  Calls are serialized by the monitor lock, so a run is a list of
arrival delays: the next call arrives `d ≥ 0` seconds after the previous
call returned. -/

/-- The pruning loop `while self.request_times and (now - self.request_times[0]) > 60`. -/
def prune (now : ℚ) (q : List ℚ) : List ℚ :=
  q.dropWhile (fun t => decide (60 < now - t))

/-- One `wait_if_needed()` call (lines 30-59).  The threshold is
`int(self.max_requests * 0.95)`, modelled as the floor
`max_requests * 95 / 100` in `ℕ`. -/
def wait_if_needed (max_requests : ℕ) (now : ℚ) (q0 : List ℚ) : ℚ × List ℚ :=
  let q := prune now q0
  let current_count := q.length
  let threshold := max_requests * 95 / 100
  if current_count ≥ threshold then
    match q.head? with
    | some oldest_time =>
      let elapsed := now - oldest_time
      if elapsed < 60 then
        let wait_time := 60 - elapsed + 1/10
        if 0 < wait_time then
          -- sleep, then prune again and record the post-sleep clock
          let now2 := now + wait_time
          let q2 := prune now2 q
          (now2, q2 ++ [now2])
        else (now, q ++ [now])
      else (now, q ++ [now])
    | none => (now, q ++ [now])
  else (now, q ++ [now])

/-- A run of `wait_if_needed` calls: `last` is the clock value at which the
previous call returned (initially the start time), and each delay `d`
produces a call at `last + d`.  Returns the granted timestamps in order
together with the final queue. -/
def rlRun (maxR : ℕ) : ℚ → List ℚ → List ℚ → List ℚ × List ℚ
  | _, q, [] => ([], q)
  | last, q, d :: ds =>
    let now := last + d
    let p := wait_if_needed maxR now q
    let rest := rlRun maxR p.1 p.2 ds
    (p.1 :: rest.1, rest.2)

/-- The granted timestamps of a run started at clock `t0` with an empty queue. -/
def rlGrants (maxR : ℕ) (t0 : ℚ) (ds : List ℚ) : List ℚ :=
  (rlRun maxR t0 [] ds).1

/-- General-position condition for one call: after pruning, the oldest
retained timestamp is not exactly 60 seconds old.  The source guards the
sleep with the strict test `elapsed < 60` while the prune keeps entries
with `now - t = 60`, so the exact boundary admits a request without
sleeping. -/
def stepOK (now : ℚ) (q0 : List ℚ) : Bool :=
  match (prune now q0).head? with
  | some oldest => decide (now - oldest ≠ 60)
  | none => true

/-- General-position condition along a whole run. -/
def rlOK (maxR : ℕ) : ℚ → List ℚ → List ℚ → Bool
  | _, _, [] => true
  | last, q, d :: ds =>
    let now := last + d
    stepOK now q &&
      (let p := wait_if_needed maxR now q
       rlOK maxR p.1 p.2 ds)

/-- The window-capacity bound the limiter is meant to enforce:
`max threshold 1` requests, which is at most the configured ceiling. -/
def wlim (maxR : ℕ) : ℕ := max (maxR * 95 / 100) 1

/-! ### `_analyze_single_comment` and `analyze_all_comments` (lines 873-1097) -/

/-- One input row, as consumed by `_analyze_single_comment` (lines 885-889):
`original_text`, `username`, and the optional `guest_id` / `user_type` /
`user_id` fields (`none` models an absent or NaN value). -/
structure Row where
  original_text : String
  username : String
  guest_id : Option String
  user_type : Option String
  user_id : Option String
deriving DecidableEq, Repr

/-- A placeholder row (used only for out-of-range `df.iloc` lookups, which
never happen along the proved runs). -/
def emptyRow : Row := ⟨"", "", none, none, none⟩

/-- An analyzed result row: the input row together with the
`"チャットの属性"` and `"チャット感情"` columns, and the transient
`"_tokens_info"` entry when present. -/
structure ResultRow where
  row : Row
  chatAttr : String
  chatSent : String
  tokens : Option TokensInfo
deriving DecidableEq, Repr

/-- The default row built when a worker error is swallowed
(lines 911-914 and 1057-1060): default labels, no `"_tokens_info"` key. -/
def defaultRowFor (row : Row) : ResultRow :=
  ⟨row, "絵文字のみ", "どちらでもない", none⟩

/-- The oracle for one row: the outcomes of the combined-call attempts and
of the two possible legacy fallback calls. -/
structure RowOracle where
  attempts : ℕ → ApiOutcome
  attrOutcome : ApiOutcome
  sentOutcome : ApiOutcome

/-- Result of `_analyze_single_comment` for one row. -/
inductive SingleOutcome
  | ok (r : ResultRow)
  | raiseRateLimit
deriving DecidableEq, Repr

/-- `_analyze_single_comment(idx, row, rate_limit_monitor)` (lines 873-914),
minus the index plumbing and the rate-limiter wait (which does not change
the returned value).  A rate-limit exception from
`analyze_comment_combined` is re-raised (line 909); any other exception —
in particular the `ValueError` raised when unpacking a 2-tuple result into
`attribute, sentiment, tokens_info` (line 896) — is swallowed into the
default row (lines 910-914). -/
def _analyze_single_comment (row : Row) (o : RowOracle) : SingleOutcome :=
  match analyze_comment_combined row.original_text row.username
      row.guest_id row.user_type row.user_id o.attempts o.attrOutcome o.sentOutcome with
  | .rateLimitRaise => .raiseRateLimit
  | .ok a s (some t) => .ok ⟨row, a, s, some t⟩
  | .ok _ _ none => .ok (defaultRowFor row)

/-- What `future.result()` delivers to the dispatcher for one submitted
index: a returned result row, a raised exception whose text matches the
rate-limit markers, or any other raised exception (for example a `KeyError`
from a row without an `original_text` column, raised at line 885 outside
the `try` block of the worker). -/
inductive WorkerOutcome
  | ok (r : ResultRow)
  | raiseRateLimit
  | raiseOther
deriving DecidableEq, Repr

/-- The worker function induced by per-row oracles. -/
def workerOf (rows : List Row) (oracles : ℕ → RowOracle) (i : ℕ) : WorkerOutcome :=
  match _analyze_single_comment (rows.getD i emptyRow) (oracles i) with
  | .ok r => .ok r
  | .raiseRateLimit => .raiseRateLimit

/-- Dispatcher state: the `results_dict` (a Python dict, here an
association list in insertion order), `completed_count`, the payloads
passed to `save_callback("save", _)` so far, and the accumulated token
usage. -/
structure DState where
  resultsDict : List (ℕ × ResultRow)
  completed : ℕ
  saves : List (List ResultRow)
  usage : TokensInfo
deriving DecidableEq, Repr

/-- Python dict assignment `results_dict[i] = r`: overwrite in place if the
key exists, append otherwise. -/
def dinsert (i : ℕ) (r : ResultRow) : List (ℕ × ResultRow) → List (ℕ × ResultRow)
  | [] => [(i, r)]
  | (j, v) :: rest => if j == i then (j, r) :: rest else (j, v) :: dinsert i r rest

/-- `[results_dict.get(i) for i in sorted(results_dict.keys()) if results_dict.get(i) is not None]`
(lines 980-981, 1013-1014, 1037, 1050, 1071-1073). -/
def sortedResults (d : List (ℕ × ResultRow)) : List ResultRow :=
  (List.insertionSort (· ≤ ·) (d.map Prod.fst)).filterMap (fun i => List.lookup i d)

/-- Processing of one completed future (lines 1017-1065).  On success the
`"_tokens_info"` entry is popped into the usage totals, the row is stored,
the completion counter advances, and every 10th completion flushes the
sorted result set to the save callback (lines 1035-1038).  On a rate-limit
error the current sorted results are saved and the error is re-raised
(lines 1040-1053), aborting the run.  On any other error a default row is
stored and the counter advances, with NO checkpoint flush (lines 1054-1065). -/
def processOne (rows : List Row) (worker : ℕ → WorkerOutcome) (st : DState) (i : ℕ) :
    Except (List (List ResultRow)) DState :=
  match worker i with
  | .ok r =>
    let tk := match r.tokens with
      | some t => t
      | none => TokensInfo.zero
    let r' : ResultRow := { r with tokens := none }
    let st1 : DState :=
      { st with
        usage := addTokens st.usage tk
        resultsDict := dinsert i r' st.resultsDict
        completed := st.completed + 1 }
    if st1.completed % 10 == 0 then
      .ok { st1 with saves := st1.saves ++ [sortedResults st1.resultsDict] }
    else
      .ok st1
  | .raiseRateLimit =>
    .error (st.saves ++ [sortedResults st.resultsDict])
  | .raiseOther =>
    .ok { st with
      resultsDict := dinsert i (defaultRowFor (rows.getD i emptyRow)) st.resultsDict
      completed := st.completed + 1 }

/-- Split the pending index list into batches of `batch_size = max_workers = 8`
(lines 955-957, 984-992). -/
def chunk8 : List ℕ → List (List ℕ)
  | [] => []
  | [a] => [[a]]
  | [a, b] => [[a, b]]
  | [a, b, c] => [[a, b, c]]
  | [a, b, c, d] => [[a, b, c, d]]
  | [a, b, c, d, e] => [[a, b, c, d, e]]
  | [a, b, c, d, e, f] => [[a, b, c, d, e, f]]
  | [a, b, c, d, e, f, g] => [[a, b, c, d, e, f, g]]
  | a :: b :: c :: d :: e :: f :: g :: h :: rest =>
    [a, b, c, d, e, f, g, h] :: chunk8 rest

/-- The batch loop (lines 976-1069): each batch is submitted to a fresh
worker pool, and its completions are observed in the order produced by
`reorder` (an arbitrary permutation models `as_completed`).  The 0.1s
inter-batch pause has no observable effect here. -/
def runBatchesGo (rows : List Row) (worker : ℕ → WorkerOutcome)
    (reorder : List ℕ → List ℕ) :
    List (List ℕ) → DState → Except (List (List ResultRow)) DState
  | [], st => .ok st
  | b :: bs, st =>
    match (reorder b).foldlM (processOne rows worker) st with
    | .error e => .error e
    | .ok st' => runBatchesGo rows worker reorder bs st'

/-- Result of a whole `analyze_all_comments` run.

* `completed results usage saves cleared`: the run returned normally with
  the given result sequence and `api_usage` totals; `saves` lists every
  payload passed to `save_callback("save", _)` in order, and `cleared`
  records whether `save_callback("clear")` was issued.
* `rateLimited saves`: the run re-raised the rate-limit exception after the
  recorded saves. -/
inductive RunResult
  | completed (results : List ResultRow) (usage : TokensInfo)
      (saves : List (List ResultRow)) (cleared : Bool)
  | rateLimited (saves : List (List ResultRow))
deriving DecidableEq, Repr

/-- The saves recorded by a run. -/
def RunResult.savesOf : RunResult → List (List ResultRow)
  | .completed _ _ s _ => s
  | .rateLimited s => s

/-- The final result sequence of a run, when it completed. -/
def RunResult.finalResults : RunResult → Option (List ResultRow)
  | .completed r _ _ _ => some r
  | .rateLimited _ => none

/-- `analyze_all_comments(df, progress_callback, save_callback, check_cancel_callback)`
(lines 917-1097) with a save callback present and no cancellation callback.

`loaded` is what `save_callback("load")` returns (the prior checkpoint, or
`[]` when none exists); per lines 939-953 it sets
`start_idx = len(loaded)` and `completed_count = start_idx`.  Crucially,
lines 1071-1073 rebuild `results` from `results_dict` alone, so the loaded
checkpoint rows are NOT part of the returned sequence.  The final save and
the checkpoint clear are lines 1076-1078. -/
def analyze_all_comments (rows : List Row) (loaded : List ResultRow)
    (worker : ℕ → WorkerOutcome) (reorder : List ℕ → List ℕ) : RunResult :=
  let total := rows.length
  let start_idx := loaded.length
  let st0 : DState := ⟨[], start_idx, [], TokensInfo.zero⟩
  match runBatchesGo rows worker reorder
      (chunk8 (List.range' start_idx (total - start_idx))) st0 with
  | .error saves => .rateLimited saves
  | .ok st =>
    let results := sortedResults st.resultsDict
    .completed results st.usage (st.saves ++ [results]) true

/-! ### Concrete fixtures used by the closed theorems and witnesses -/

/-- A plain one-comment row with a non-official author. -/
def row0 : Row := ⟨"こんにちは", "u", none, none, none⟩

/-- An oracle whose combined call succeeds with a well-formed two-line
response and a nonzero usage record. -/
def oracle0 : RowOracle :=
  ⟨fun _ => .success "属性: その他\n感情: ポジティブ" (some ⟨5, 7, 12⟩),
   .otherErr, .otherErr⟩

/-- The result row the dispatcher stores for `row0` under `oracle0`
(the `"_tokens_info"` entry has been popped into the usage totals). -/
def rr0 : ResultRow := ⟨row0, "その他", "ポジティブ", none⟩

/-- A moderator-flagged row (the first pre-classification shortcut). -/
def modRow : Row := ⟨"こんにちは", "alice", none, some "moderator", none⟩

/-- Oracle for `modRow`: the sentiment-only call succeeds. -/
def modOracle : RowOracle := ⟨fun _ => .otherErr, .otherErr, .success "ポジティブ" none⟩

/-- Eleven copies of the plain row. -/
def rows11 : List Row := List.replicate 11 row0

/-- A successfully classified result row carrying a usage record. -/
def okRow : ResultRow := ⟨row0, "その他", "ポジティブ", some ⟨1, 1, 2⟩⟩

/-- A worker family where the item at index 9 (the 10th completion under
the in-order schedule) raises a non-rate-limit exception that escapes the
worker, and every other item returns normally. -/
def w11 : ℕ → WorkerOutcome := fun i => if i == 9 then .raiseOther else .ok okRow

/-- An oracle whose every external call raises a generic (non-rate-limit)
exception. -/
def allFailOracle : RowOracle := ⟨fun _ => .otherErr, .otherErr, .otherErr⟩

/-- Oracle family for a ten-item run in which exactly item 7 (index 6) has
every external call fail with a generic exception. -/
def w9oracles : ℕ → RowOracle := fun j => if j == 6 then allFailOracle else oracle0


/-- The row the dispatcher ends up storing for index `i` when the worker
outcome is not a rate-limit error: a returned row with its
`"_tokens_info"` entry popped, or the dispatcher-built default row after a
worker-escaping error. -/
def mergedRow (rows : List Row) (worker : ℕ → WorkerOutcome) (i : ℕ) : ResultRow :=
  match worker i with
  | .ok r => { r with tokens := none }
  | _ => defaultRowFor (rows.getD i emptyRow)

/-- The completion counts in `(c, c + m]` that are multiples of 10: the
counts at which the cadence checkpoint of lines 1035-1038 fires when the
counter starts at `c` and `m` success-path completions follow. -/
def cadLens (c m : ℕ) : List ℕ :=
  (List.range' (c + 1) m).filter (fun x => x % 10 == 0)

end AIAnalyzer

namespace AIAnalyzer

/-! ## Theorems -/

/-- **C1** (code bug).  `analyze_all_comments` is not resume-idempotent: a
full one-pass run over one row returns that row, but resuming with a
checkpoint holding that same row returns an EMPTY result sequence — the
checkpoint rows only set `start_idx` (lines 939-953) and are then discarded
when `results` is rebuilt from `results_dict` alone (lines 1071-1073), so
the loaded results are not reused at positions `0..K-1`. -/
theorem claim1_resume_drops_checkpoint :
    analyze_all_comments [row0] [] (workerOf [row0] (fun _ => oracle0)) (fun l => l) =
      RunResult.completed [rr0] ⟨5, 7, 12⟩ [[rr0]] true ∧
    analyze_all_comments [row0] [rr0] (workerOf [row0] (fun _ => oracle0)) (fun l => l) =
      RunResult.completed [] TokensInfo.zero [[]] true :=
  ⟨rfl, rfl⟩

/-- **C2** (code bug).  For a moderator-flagged item the combined analyzer
returns a bare 2-tuple without the token-usage component (line 488), so the
unpacking in `_analyze_single_comment` raises and the dispatcher stores the
default row with attribute `"絵文字のみ"` — not `"公式コメント"` with
populated tokens as the claim states. -/
theorem claim2_moderator_tuple_bug :
    analyze_comment_combined "こんにちは" "alice" none (some "moderator") none
        (fun _ => ApiOutcome.otherErr) ApiOutcome.otherErr
        (ApiOutcome.success "ポジティブ" none) =
      Analyzed.ok "公式コメント" "ポジティブ" none ∧
    _analyze_single_comment modRow modOracle =
      SingleOutcome.ok ⟨modRow, "絵文字のみ", "どちらでもない", none⟩ :=
  ⟨rfl, rfl⟩

/-- **C4, counterexample.**  With ceiling `C = 1`, calls arriving at times
0, 60 and 60 are all granted: the prune keeps an entry that is exactly 60
seconds old (strict `> 60`), while the sleep guard requires strictly less
than 60 elapsed, so the boundary call is admitted without waiting.  The
closed 60-second window ending at time 60 then contains 3 > 1 grants. -/
theorem claim4_counterexample :
    ¬ (((rlGrants 1 0 [0, 60, 0]).filter
        (fun g => decide ((60 : ℚ) - 60 ≤ g ∧ g ≤ 60))).length ≤ 1) := by
  norm_num [rlGrants, rlRun, wait_if_needed, prune, List.filter]

/-- **C7, counterexample.**  When every attempt of the combined call fails
with a connection/timeout error, only two backoff sleeps happen (60s and
120s — never 240s), and after exhaustion NO distinguished rate-limit error
reaches the caller: the raised message carries no rate-limit marker, so the
outer handler (lines 849-858) falls back to the legacy path, which here
also fails and yields the default label pair as a normal result. -/
theorem claim7_counterexample :
    retryLoop (fun _ => ApiOutcome.connErr) = (RetryOutcome.raiseConn, [60, 120]) ∧
    analyze_comment_combined "c" "u" none none none (fun _ => ApiOutcome.connErr)
        ApiOutcome.connErr ApiOutcome.connErr =
      Analyzed.ok "絵文字のみ" "どちらでもない" (some TokensInfo.zero) :=
  ⟨rfl, rfl⟩

/-- **C8, counterexample.**  In an 11-item run whose 10th completion is an
item defaulted by the dispatcher after a worker-escaping error
(lines 1054-1065), no checkpoint save happens at the 10th completion: the
only `save` of the whole run is the final flush with all 11 rows, so no
persisted payload is the 10-row snapshot the claim requires. -/
theorem claim8_counterexample :
    (analyze_all_comments rows11 [] w11 (fun l => l)).savesOf.map List.length = [11] ∧
    (analyze_all_comments rows11 [] w11 (fun l => l)).finalResults.map List.length =
      some 11 :=
  ⟨rfl, rfl⟩

/-! ### Label-closure lemmas (for C5 and C6) -/

/-- The official-comment remap maps configured categories to configured
categories. -/
theorem remapOfficial_mem (u a : String) (h : a ∈ CHAT_ATTRIBUTES) :
    remapOfficial u a ∈ CHAT_ATTRIBUTES := by
  unfold remapOfficial
  split
  · split
    · decide
    · decide
  · exact h

/-- Every value `sentimentParse` can return belongs to `CHAT_SENTIMENTS`. -/
theorem sentimentParse_mem (raw : String) : sentimentParse raw ∈ CHAT_SENTIMENTS := by
  unfold sentimentParse
  dsimp only
  split
  · assumption
  · split
    · assumption
    · split
      · exact List.mem_of_find?_eq_some (by assumption)
      · split
        · assumption
        · exact absurd (show "どちらでもない" ∈ CHAT_SENTIMENTS by decide) (by assumption)

/-- Every value `analyze_comment_sentiment` can return belongs to
`CHAT_SENTIMENTS`. -/
theorem analyze_comment_sentiment_mem (t : String) (o : ApiOutcome) :
    analyze_comment_sentiment t o ∈ CHAT_SENTIMENTS := by
  unfold analyze_comment_sentiment
  split
  · exact sentimentParse_mem _
  · decide

/-- Every value `attributeParse` can return belongs to `CHAT_ATTRIBUTES`. -/
theorem attributeParse_mem (u raw : String) : attributeParse u raw ∈ CHAT_ATTRIBUTES := by
  unfold attributeParse
  dsimp only
  split
  · exact remapOfficial_mem _ _ (by assumption)
  · split
    · exact remapOfficial_mem _ _ (by assumption)
    · split
      · exact remapOfficial_mem _ _ (List.mem_of_find?_eq_some (by assumption))
      · split
        · assumption
        · exact absurd (show "絵文字のみ" ∈ CHAT_ATTRIBUTES by decide) (by assumption)

/-- Every value `analyze_comment_attribute` can return belongs to
`CHAT_ATTRIBUTES`. -/
theorem analyze_comment_attribute_mem (t u : String) (g ut uid : Option String)
    (o : ApiOutcome) :
    analyze_comment_attribute t u g ut uid o ∈ CHAT_ATTRIBUTES := by
  unfold analyze_comment_attribute
  split
  · decide
  · split
    · decide
    · split
      · decide
      · split
        · decide
        · split
          · exact attributeParse_mem _ _
          · decide

/-- The final attribute validation always lands in `CHAT_ATTRIBUTES`. -/
theorem validateAttr_mem (u raw a0 : String) :
    validateAttr u raw a0 ∈ CHAT_ATTRIBUTES := by
  unfold validateAttr
  dsimp only
  split
  · assumption
  · split
    · exact remapOfficial_mem _ _ (List.mem_of_find?_eq_some (by assumption))
    · decide

/-- The final sentiment validation always lands in `CHAT_SENTIMENTS`. -/
theorem validateSent_mem (raw s0 : String) :
    validateSent raw s0 ∈ CHAT_SENTIMENTS := by
  unfold validateSent
  dsimp only
  split
  · assumption
  · split
    · exact List.mem_of_find?_eq_some (by assumption)
    · decide

/-- **C5** (confirmed).  Whatever the external service returns on any of
the involved calls — including empty, noisy, or multi-label responses —
every normally returned label pair lies inside the configured closed sets:
the attribute in `CHAT_ATTRIBUTES` and the sentiment in `CHAT_SENTIMENTS`. -/
theorem claim5_label_closure (text username : String) (g ut uid : Option String)
    (attempts : ℕ → ApiOutcome) (ao so : ApiOutcome) (a s : String)
    (tk : Option TokensInfo)
    (h : analyze_comment_combined text username g ut uid attempts ao so =
      Analyzed.ok a s tk) :
    a ∈ CHAT_ATTRIBUTES ∧ s ∈ CHAT_SENTIMENTS := by
  unfold analyze_comment_combined at h
  split at h
  · cases h
    exact ⟨by decide, analyze_comment_sentiment_mem _ _⟩
  · split at h
    · cases h
      exact ⟨by decide, analyze_comment_sentiment_mem _ _⟩
    · split at h
      · cases h
        exact ⟨by decide, analyze_comment_sentiment_mem _ _⟩
      · split at h
        · cases h
          exact ⟨by decide, analyze_comment_sentiment_mem _ _⟩
        · split at h
          · cases h
            exact ⟨validateAttr_mem _ _ _, validateSent_mem _ _⟩
          · exact absurd h (by simp)
          · cases h
            exact ⟨analyze_comment_attribute_mem _ _ _ _ _ _,
              analyze_comment_sentiment_mem _ _⟩
          · cases h
            exact ⟨analyze_comment_attribute_mem _ _ _ _ _ _,
              analyze_comment_sentiment_mem _ _⟩

/-- Witness for C5: a concrete pure-noise response resolves to the default
pair, which the theorem certifies to lie in the configured sets. -/
theorem claim5_label_closure_witness :
    analyze_comment_combined "x" "u" none none none
        (fun _ => ApiOutcome.success "garbage!!!" none) ApiOutcome.otherErr
        ApiOutcome.otherErr =
      Analyzed.ok "絵文字のみ" "どちらでもない" (some TokensInfo.zero) ∧
    ("絵文字のみ" ∈ CHAT_ATTRIBUTES ∧ "どちらでもない" ∈ CHAT_SENTIMENTS) :=
  ⟨rfl, claim5_label_closure "x" "u" none none none
    (fun _ => ApiOutcome.success "garbage!!!" none) ApiOutcome.otherErr
    ApiOutcome.otherErr "絵文字のみ" "どちらでもない" (some TokensInfo.zero) rfl⟩

/-! ### Official-remap lemmas (for C6) -/

/-- When the author is not the configured official account, the remap never
produces `"公式コメント"`. -/
theorem remapOfficial_ne (u a : String) (hu : u ≠ COMPANY_NAME) :
    remapOfficial u a ≠ "公式コメント" := by
  unfold remapOfficial
  split
  · split
    next hc => exact absurd (by exact (beq_iff_eq).mp hc) hu
    next => decide
  · next hc =>
      intro heq
      rw [heq] at hc
      simp at hc

/-- When the author is not the official account, the final attribute
validation never produces `"公式コメント"` from a non-official input. -/
theorem validateAttr_ne (u raw a0 : String) (hu : u ≠ COMPANY_NAME)
    (h0 : a0 ≠ "公式コメント") : validateAttr u raw a0 ≠ "公式コメント" := by
  unfold validateAttr
  dsimp only
  split
  · exact h0
  · split
    · exact remapOfficial_ne _ _ hu
    · decide

/-- When the author is not the official account, `attributeParse` never
returns `"公式コメント"`. -/
theorem attributeParse_ne (u raw : String) (hu : u ≠ COMPANY_NAME) :
    attributeParse u raw ≠ "公式コメント" := by
  unfold attributeParse
  dsimp only
  split
  · exact remapOfficial_ne _ _ hu
  · split
    · exact remapOfficial_ne _ _ hu
    · split
      · exact remapOfficial_ne _ _ hu
      · split
        · decide
        · exact absurd (show "絵文字のみ" ∈ CHAT_ATTRIBUTES by decide) (by assumption)

/-- When the author is neither the official account nor covered by any
pre-classification shortcut, `analyze_comment_attribute` (as called from
the fallbacks, with `user_type = None` and `user_id = None`) never returns
`"公式コメント"`. -/
theorem analyze_comment_attribute_ne (t u : String) (g : Option String)
    (o : ApiOutcome) (hu : u ≠ COMPANY_NAME) (hg : isOfficialGuest g = false)
    (hmk : isMatsukiyoStaff u = false) :
    analyze_comment_attribute t u g none none o ≠ "公式コメント" := by
  unfold analyze_comment_attribute
  split
  next hc => exact absurd hc (by decide)
  next =>
    split
    next hc => exact absurd hc (by decide)
    next =>
      split
      next hc => exact absurd hc (by simp [hg])
      next =>
        split
        next hc => exact absurd hc (by simp [hmk])
        next =>
          split
          · exact attributeParse_ne _ _ hu
          · decide

/-- **C6** (confirmed).  For any response of the external service, if the
author name differs from the configured official account and no
pre-classification shortcut fires, then the attribute returned by
`analyze_comment_combined` is never `"公式コメント"` — in particular, an
LLM-resolved `"公式コメント"` is remapped to the default `"絵文字のみ"`. -/
theorem claim6_official_remap (text username : String) (g ut uid : Option String)
    (attempts : ℕ → ApiOutcome) (ao so : ApiOutcome) (a s : String)
    (tk : Option TokensInfo)
    (hmod : isModeratorType ut = false) (huid : hasUserId uid = false)
    (hg : isOfficialGuest g = false) (hmk : isMatsukiyoStaff username = false)
    (hu : username ≠ COMPANY_NAME)
    (h : analyze_comment_combined text username g ut uid attempts ao so =
      Analyzed.ok a s tk) :
    a ≠ "公式コメント" := by
  unfold analyze_comment_combined at h
  split at h
  next hc => exact absurd hc (by simp [hmod])
  next =>
    split at h
    next hc => exact absurd hc (by simp [huid])
    next =>
      split at h
      next hc => exact absurd hc (by simp [hg])
      next =>
        split at h
        next hc => exact absurd hc (by simp [hmk])
        next =>
          split at h
          · cases h
            exact validateAttr_ne _ _ _ hu (remapOfficial_ne _ _ hu)
          · exact Analyzed.noConfusion h
          · cases h
            exact analyze_comment_attribute_ne _ _ _ _ hu hg hmk
          · cases h
            exact analyze_comment_attribute_ne _ _ _ _ hu hg hmk

/-- Witness for C6: a response that names `"公式コメント"` for the
non-official author `"bob"` resolves to `"絵文字のみ"`, and the theorem
certifies the attribute cannot be `"公式コメント"`. -/
theorem claim6_official_remap_witness :
    analyze_comment_combined "t" "bob" none none none
        (fun _ => ApiOutcome.success "属性: 公式コメント\n感情: ポジティブ" (some ⟨1, 1, 2⟩))
        ApiOutcome.otherErr ApiOutcome.otherErr =
      Analyzed.ok "絵文字のみ" "ポジティブ" (some ⟨1, 1, 2⟩) ∧
    ("bob" : String) ≠ COMPANY_NAME ∧ ("絵文字のみ" : String) ≠ "公式コメント" :=
  ⟨rfl, by decide,
    claim6_official_remap "t" "bob" none none none
      (fun _ => ApiOutcome.success "属性: 公式コメント\n感情: ポジティブ" (some ⟨1, 1, 2⟩))
      ApiOutcome.otherErr ApiOutcome.otherErr "絵文字のみ" "ポジティブ" (some ⟨1, 1, 2⟩)
      rfl rfl rfl rfl (by decide) rfl⟩

/-- **C7, amended** (see the counterexample for the original wording).
When every attempt of the combined call fails with a rate-limit signal
(`RateLimitError`, or an `APIError` carrying a 429/rate-limit marker), the
retry loop makes exactly 3 attempts sleeping 60s and then 120s between them
(the doubled 240s delay is computed but never slept), the exhaustion
raises the distinguished rate-limit error which
`analyze_comment_combined` propagates, and the dispatcher reacts to such a
worker error by persisting the current sorted results through the save
callback and re-raising. -/
theorem claim7_rate_limit_escalation (attempts : ℕ → ApiOutcome)
    (h3 : ∀ n, n < 3 → attempts n = ApiOutcome.rateLimit ∨
      attempts n = ApiOutcome.apiErr true)
    (text username : String) (g ut uid : Option String) (ao so : ApiOutcome)
    (hmod : isModeratorType ut = false) (huid : hasUserId uid = false)
    (hg : isOfficialGuest g = false) (hmk : isMatsukiyoStaff username = false)
    (rows : List Row) (worker : ℕ → WorkerOutcome) (st : DState) (i : ℕ)
    (hw : worker i = WorkerOutcome.raiseRateLimit) :
    retryLoop attempts = (RetryOutcome.raiseRateLimit, [60, 120]) ∧
    analyze_comment_combined text username g ut uid attempts ao so =
      Analyzed.rateLimitRaise ∧
    processOne rows worker st i =
      Except.error (st.saves ++ [sortedResults st.resultsDict]) := by
  have hr : retryLoop attempts = (RetryOutcome.raiseRateLimit, [60, 120]) := by
    have h0 := h3 0 (by norm_num)
    have h1 := h3 1 (by norm_num)
    have h2 := h3 2 (by norm_num)
    rcases h0 with h0 | h0 <;> rcases h1 with h1 | h1 <;> rcases h2 with h2 | h2 <;>
      simp [retryLoop, retryGo, h0, h1, h2]
  refine ⟨hr, ?_, ?_⟩
  · unfold analyze_comment_combined
    rw [hmod, huid, hg, hmk, hr]
    rfl
  · unfold processOne
    rw [hw]

/-- Witness for the amended C7 at an all-`RateLimitError` oracle. -/
theorem claim7_rate_limit_escalation_witness :
    retryLoop (fun _ => ApiOutcome.rateLimit) = (RetryOutcome.raiseRateLimit, [60, 120]) ∧
    analyze_comment_combined "c" "u" none none none (fun _ => ApiOutcome.rateLimit)
        ApiOutcome.otherErr ApiOutcome.otherErr = Analyzed.rateLimitRaise ∧
    processOne [] (fun _ => WorkerOutcome.raiseRateLimit) ⟨[], 0, [], TokensInfo.zero⟩ 0 =
      Except.error [[]] :=
  claim7_rate_limit_escalation (fun _ => ApiOutcome.rateLimit) (fun _ _ => Or.inl rfl)
    "c" "u" none none none ApiOutcome.otherErr ApiOutcome.otherErr rfl rfl rfl rfl
    [] (fun _ => WorkerOutcome.raiseRateLimit) ⟨[], 0, [], TokensInfo.zero⟩ 0 rfl

/-! ### Dispatcher bookkeeping lemmas (for C3, C8 and C9) -/

/-- Natural-number inequality transported to `==`. -/
theorem beq_false_of_ne_nat (a b : ℕ) (h : a ≠ b) : (a == b) = false := by
  simpa using h

/-- Lookup after a Python-dict assignment. -/
theorem lookup_dinsert (i : ℕ) (r : ResultRow) (d : List (ℕ × ResultRow)) (j : ℕ) :
    List.lookup j (dinsert i r d) = if j = i then some r else List.lookup j d := by
  induction d with
  | nil =>
    by_cases h : j = i
    · simp [dinsert, List.lookup, h]
    · simp [dinsert, List.lookup, beq_false_of_ne_nat j i h, h]
  | cons p t ih =>
    obtain ⟨k, v⟩ := p
    by_cases hki : k = i
    · subst hki
      by_cases hj : j = k
      · simp [dinsert, List.lookup, hj]
      · simp [dinsert, List.lookup, beq_false_of_ne_nat j k hj, hj]
    · by_cases hj : j = k
      · subst hj
        simp [dinsert, List.lookup, hki, beq_false_of_ne_nat j i hki]
      · simp [dinsert, List.lookup, beq_false_of_ne_nat k i hki,
          beq_false_of_ne_nat j k hj, hj, ih]

/-- Assigning a fresh key appends it to the key sequence. -/
theorem keys_dinsert_not_mem (i : ℕ) (r : ResultRow) (d : List (ℕ × ResultRow))
    (h : i ∉ d.map Prod.fst) :
    (dinsert i r d).map Prod.fst = d.map Prod.fst ++ [i] := by
  induction d with
  | nil => rfl
  | cons p t ih =>
    obtain ⟨k, v⟩ := p
    simp only [List.map_cons, List.mem_cons] at h
    push_neg at h
    simp only [dinsert, beq_false_of_ne_nat k i (Ne.symm h.1), Bool.false_eq_true,
      if_false, List.map_cons, ih h.2, List.cons_append]

/-- Lookup after a fold of Python-dict assignments with values drawn from a
per-key function. -/
theorem lookup_foldl_dinsert (f : ℕ → ResultRow) :
    ∀ (L : List ℕ) (d0 : List (ℕ × ResultRow)) (j : ℕ),
      List.lookup j (L.foldl (fun d i => dinsert i (f i) d) d0) =
        if j ∈ L then some (f j) else List.lookup j d0
  | [], d0, j => by simp
  | a :: t, d0, j => by
    simp only [List.foldl_cons]
    rw [lookup_foldl_dinsert f t (dinsert a (f a) d0) j]
    by_cases hj : j ∈ t
    · simp [hj]
    · by_cases hja : j = a
      · simp [hja, hj, lookup_dinsert]
      · simp [hj, hja, lookup_dinsert]

/-- Keys after a fold of assignments with fresh, pairwise distinct keys. -/
theorem keys_foldl_dinsert (f : ℕ → ResultRow) :
    ∀ (L : List ℕ) (d0 : List (ℕ × ResultRow)), L.Nodup →
      (∀ i ∈ L, i ∉ d0.map Prod.fst) →
      (L.foldl (fun d i => dinsert i (f i) d) d0).map Prod.fst = d0.map Prod.fst ++ L
  | [], d0, _, _ => by simp
  | a :: t, d0, hnd, hdisj => by
    simp only [List.foldl_cons]
    rw [keys_foldl_dinsert f t (dinsert a (f a) d0) hnd.of_cons ?_]
    · rw [keys_dinsert_not_mem _ _ _ (hdisj a (by simp))]
      simp
    · intro i hi
      rw [keys_dinsert_not_mem _ _ _ (hdisj a (by simp))]
      simp only [List.mem_append, List.mem_singleton]
      push_neg
      exact ⟨hdisj i (by simp [hi]),
        fun heq => (List.nodup_cons.mp hnd).1 (heq ▸ hi)⟩

/-- A `filterMap` whose function is total on the list is a `map`. -/
theorem filterMap_lookup_eq_map (f : ℕ → ResultRow) (d : List (ℕ × ResultRow))
    (l : List ℕ) (h : ∀ x ∈ l, List.lookup x d = some (f x)) :
    l.filterMap (fun i => List.lookup i d) = l.map f := by
  induction l with
  | nil => rfl
  | cons a t ih =>
    simp [List.filterMap_cons, h a (by simp), ih (fun x hx => h x (by simp [hx]))]

/-- When the dictionary keys are a permutation of `range N` and each index
maps to `f`, the sorted extraction of lines 1071-1073 is exactly the
index-ordered sequence of values. -/
theorem sortedResults_eq_map (d : List (ℕ × ResultRow)) (N : ℕ) (f : ℕ → ResultRow)
    (hkeys : List.Perm (d.map Prod.fst) (List.range N))
    (hval : ∀ j, j < N → List.lookup j d = some (f j)) :
    sortedResults d = (List.range N).map f := by
  unfold sortedResults
  have hsorted : List.insertionSort (· ≤ ·) (d.map Prod.fst) = List.range N :=
    List.eq_of_perm_of_sorted ((List.perm_insertionSort _ _).trans hkeys)
      (List.sorted_insertionSort _ _) (List.sorted_le_range N)
  rw [hsorted]
  exact filterMap_lookup_eq_map f d _ (fun x hx => hval x (List.mem_range.mp hx))

/-- One completion that is not a rate-limit error stores the merged row and
advances the counter. -/
theorem processOne_ok_of_ne_rl (rows : List Row) (worker : ℕ → WorkerOutcome)
    (st : DState) (i : ℕ) (h : worker i ≠ WorkerOutcome.raiseRateLimit) :
    ∃ st', processOne rows worker st i = Except.ok st' ∧
      st'.resultsDict = dinsert i (mergedRow rows worker i) st.resultsDict ∧
      st'.completed = st.completed + 1 := by
  unfold processOne mergedRow
  cases hwa : worker i with
  | ok r =>
    dsimp only
    split
    · exact ⟨_, rfl, rfl, rfl⟩
    · exact ⟨_, rfl, rfl, rfl⟩
  | raiseRateLimit => exact absurd hwa h
  | raiseOther => exact ⟨_, rfl, rfl, rfl⟩

/-- A batch of completions without rate-limit errors folds into the
dictionary one merged row per index. -/
theorem foldlM_processOne_ok (rows : List Row) (worker : ℕ → WorkerOutcome) :
    ∀ (L : List ℕ) (st : DState),
      (∀ i ∈ L, worker i ≠ WorkerOutcome.raiseRateLimit) →
      ∃ st', L.foldlM (processOne rows worker) st = Except.ok st' ∧
        st'.resultsDict =
          L.foldl (fun d i => dinsert i (mergedRow rows worker i) d) st.resultsDict ∧
        st'.completed = st.completed + L.length
  | [], st, _ => ⟨st, rfl, rfl, by simp⟩
  | a :: t, st, hL => by
    obtain ⟨st1, hstep, hdict, hcomp⟩ :=
      processOne_ok_of_ne_rl rows worker st a (hL a (by simp))
    obtain ⟨st', hfold, hdict', hcomp'⟩ :=
      foldlM_processOne_ok rows worker t st1 (fun i hi => hL i (by simp [hi]))
    refine ⟨st', ?_, ?_, ?_⟩
    · rw [List.foldlM_cons, hstep]
      simpa using hfold
    · rw [hdict', hdict, List.foldl_cons]
    · rw [hcomp', hcomp, List.length_cons]
      omega

/-- The whole batch loop without rate-limit errors. -/
theorem runBatchesGo_ok (rows : List Row) (worker : ℕ → WorkerOutcome)
    (reorder : List ℕ → List ℕ) :
    ∀ (bs : List (List ℕ)) (st : DState),
      (∀ i ∈ (bs.map reorder).flatten, worker i ≠ WorkerOutcome.raiseRateLimit) →
      ∃ st', runBatchesGo rows worker reorder bs st = Except.ok st' ∧
        st'.resultsDict = ((bs.map reorder).flatten).foldl
          (fun d i => dinsert i (mergedRow rows worker i) d) st.resultsDict ∧
        st'.completed = st.completed + ((bs.map reorder).flatten).length
  | [], st, _ => ⟨st, rfl, rfl, by simp⟩
  | b :: bs, st, hL => by
    obtain ⟨st1, h1, hd1, hc1⟩ := foldlM_processOne_ok rows worker (reorder b) st
      (fun i hi => hL i (by simp [hi]))
    obtain ⟨st', h2, hd2, hc2⟩ := runBatchesGo_ok rows worker reorder bs st1
      (fun i hi => hL i (by simp [hi]))
    refine ⟨st', ?_, ?_, ?_⟩
    · rw [runBatchesGo, h1]
      exact h2
    · rw [hd2, hd1]
      simp [List.foldl_append]
    · rw [hc2, hc1]
      simp
      omega

/-- Batching preserves the underlying index sequence. -/
theorem chunk8_flatten : ∀ (l : List ℕ), (chunk8 l).flatten = l := by
  intro l
  induction l using chunk8.induct <;> simp [chunk8, *]

/-- Permuting each batch permutes the flattened completion order. -/
theorem flatten_map_reorder_perm (reorder : List ℕ → List ℕ)
    (hperm : ∀ l, List.Perm (reorder l) l) :
    ∀ (bs : List (List ℕ)), List.Perm ((bs.map reorder).flatten) bs.flatten
  | [] => List.Perm.refl _
  | b :: bs => by
    simpa using (hperm b).append (flatten_map_reorder_perm reorder hperm bs)

/-- Master lemma: a fresh run (no checkpoint) in which no worker raises a
rate-limit error completes, and its final sequence is exactly one merged
row per input index, in increasing index order. -/
theorem run_complete (rows : List Row) (worker : ℕ → WorkerOutcome)
    (reorder : List ℕ → List ℕ) (hperm : ∀ l, List.Perm (reorder l) l)
    (hnorl : ∀ i, i < rows.length → worker i ≠ WorkerOutcome.raiseRateLimit) :
    ∃ u sv, analyze_all_comments rows [] worker reorder =
      RunResult.completed ((List.range rows.length).map (mergedRow rows worker))
        u sv true := by
  have hcomps : List.Perm (((chunk8 (List.range' 0 (rows.length - 0))).map reorder).flatten)
      (List.range rows.length) := by
    have h1 := flatten_map_reorder_perm reorder hperm (chunk8 (List.range' 0 (rows.length - 0)))
    rw [chunk8_flatten] at h1
    simpa [Nat.sub_zero, ← List.range_eq_range'] using h1
  have hmem : ∀ i ∈ ((chunk8 (List.range' 0 (rows.length - 0))).map reorder).flatten,
      worker i ≠ WorkerOutcome.raiseRateLimit := fun i hi =>
    hnorl i (List.mem_range.mp (hcomps.subset hi))
  obtain ⟨st', hrun, hdict, hcomp⟩ := runBatchesGo_ok rows worker reorder
    (chunk8 (List.range' 0 (rows.length - 0))) ⟨[], 0, [], TokensInfo.zero⟩ hmem
  have hnd : (((chunk8 (List.range' 0 (rows.length - 0))).map reorder).flatten).Nodup :=
    (hcomps.nodup_iff).mpr (List.nodup_range _)
  have hkeys : st'.resultsDict.map Prod.fst =
      ((chunk8 (List.range' 0 (rows.length - 0))).map reorder).flatten := by
    rw [hdict, keys_foldl_dinsert _ _ _ hnd (by simp)]
    simp
  have hres : sortedResults st'.resultsDict =
      (List.range rows.length).map (mergedRow rows worker) := by
    apply sortedResults_eq_map _ rows.length
    · rw [hkeys]
      exact hcomps
    · intro j hj
      rw [hdict, lookup_foldl_dinsert]
      rw [if_pos ((hcomps.mem_iff).mpr (List.mem_range.mpr hj))]
  refine ⟨st'.usage, st'.saves ++ [(List.range rows.length).map (mergedRow rows worker)], ?_⟩
  unfold analyze_all_comments
  simp only [List.length_nil]
  rw [hrun]
  dsimp only
  rw [hres]

/-- Positional access into the index-ordered result sequence. -/
theorem getD_map_range (N : ℕ) (f : ℕ → ResultRow) (k : ℕ) (hk : k < N) (d : ResultRow) :
    ((List.range N).map f).getD k d = f k := by
  have hlen : k < ((List.range N).map f).length := by simpa using hk
  rw [List.getD_eq_getElem _ _ hlen]
  simp

/-- For a non-shortcut item whose every external call (the combined
attempts as well as both legacy fallback calls) raises a generic exception,
the combined analyzer returns the documented default pair with zero usage. -/
theorem combined_allFail (text username : String) (g ut uid : Option String)
    (hmod : isModeratorType ut = false) (huid : hasUserId uid = false)
    (hg : isOfficialGuest g = false) (hmk : isMatsukiyoStaff username = false) :
    analyze_comment_combined text username g ut uid (fun _ => ApiOutcome.otherErr)
      ApiOutcome.otherErr ApiOutcome.otherErr =
      Analyzed.ok "絵文字のみ" "どちらでもない" (some TokensInfo.zero) := by
  have hattr : analyze_comment_attribute text username g none none ApiOutcome.otherErr =
      "絵文字のみ" := by
    unfold analyze_comment_attribute
    rw [hg, hmk]
    rfl
  unfold analyze_comment_combined
  rw [hmod, huid, hg, hmk, hattr]
  rfl

/-- The failing item of C9 at the worker level: the default pair is stored
with zero usage (later popped by the dispatcher). -/
theorem workerOf_allFail (rows : List Row) (oracles : ℕ → RowOracle) (k : ℕ)
    (ho : oracles k = allFailOracle)
    (hmod : isModeratorType (rows.getD k emptyRow).user_type = false)
    (huid : hasUserId (rows.getD k emptyRow).user_id = false)
    (hg : isOfficialGuest (rows.getD k emptyRow).guest_id = false)
    (hmk : isMatsukiyoStaff (rows.getD k emptyRow).username = false) :
    workerOf rows oracles k = WorkerOutcome.ok
      ⟨rows.getD k emptyRow, "絵文字のみ", "どちらでもない", some TokensInfo.zero⟩ := by
  unfold workerOf _analyze_single_comment
  rw [ho]
  have h1 : allFailOracle.attempts = (fun _ => ApiOutcome.otherErr) := rfl
  have h2 : allFailOracle.attrOutcome = ApiOutcome.otherErr := rfl
  have h3 : allFailOracle.sentOutcome = ApiOutcome.otherErr := rfl
  rw [h1, h2, h3, combined_allFail _ _ _ _ _ hmod huid hg hmk]

/-- **C3** (confirmed).  For every input sequence (any `N ≥ 0`), every
per-batch completion order, and any workers that do not raise the
rate-limit error, the run completes and the returned sequence is exactly
`[row for index 0, row for index 1, ...]`: position `i` holds index `i`'s
result, so the output is strictly sorted by original input index with no
gaps and no duplicates. -/
theorem claim3_order_invariant (rows : List Row) (worker : ℕ → WorkerOutcome)
    (reorder : List ℕ → List ℕ) (hperm : ∀ l, List.Perm (reorder l) l)
    (hnorl : ∀ i, i < rows.length → worker i ≠ WorkerOutcome.raiseRateLimit) :
    ∃ u sv, analyze_all_comments rows [] worker reorder =
      RunResult.completed ((List.range rows.length).map (mergedRow rows worker))
        u sv true :=
  run_complete rows worker reorder hperm hnorl

/-- Witness for C3: three items processed with each batch consumed in
reversed completion order still come back in input order. -/
theorem claim3_order_invariant_witness :
    (∀ l : List ℕ, List.Perm l.reverse l) ∧
    (∃ u sv, analyze_all_comments (List.replicate 3 row0) []
        (fun _ => WorkerOutcome.ok okRow) List.reverse =
      RunResult.completed
        ((List.range 3).map (mergedRow (List.replicate 3 row0) (fun _ => WorkerOutcome.ok okRow)))
        u sv true) :=
  ⟨fun l => List.reverse_perm l,
   claim3_order_invariant (List.replicate 3 row0) (fun _ => WorkerOutcome.ok okRow)
     List.reverse (fun l => List.reverse_perm l) (fun _ _ => by simp)⟩

/-- **C9** (confirmed).  When exactly the item at index `k` has all of its
external calls raise generic (non-rate-limit) exceptions and no worker
raises the rate-limit error, the run still completes with one entry per
input item; entry `k` carries the documented default pair (attribute
`"絵文字のみ"`, sentiment `"どちらでもない"`), and every other entry is the
row its own worker produced, unaffected by the failure. -/
theorem claim9_single_failure_isolated (rows : List Row) (oracles : ℕ → RowOracle)
    (reorder : List ℕ → List ℕ) (k : ℕ) (hk : k < rows.length)
    (hperm : ∀ l, List.Perm (reorder l) l)
    (ho : oracles k = allFailOracle)
    (hmod : isModeratorType (rows.getD k emptyRow).user_type = false)
    (huid : hasUserId (rows.getD k emptyRow).user_id = false)
    (hg : isOfficialGuest (rows.getD k emptyRow).guest_id = false)
    (hmk : isMatsukiyoStaff (rows.getD k emptyRow).username = false)
    (hnorl : ∀ i, i < rows.length →
      workerOf rows oracles i ≠ WorkerOutcome.raiseRateLimit) :
    ∃ res u sv, analyze_all_comments rows [] (workerOf rows oracles) reorder =
      RunResult.completed res u sv true ∧
      res.length = rows.length ∧
      res.getD k (defaultRowFor emptyRow) =
        ⟨rows.getD k emptyRow, "絵文字のみ", "どちらでもない", none⟩ ∧
      (∀ j, j < rows.length → j ≠ k →
        res.getD j (defaultRowFor emptyRow) = mergedRow rows (workerOf rows oracles) j) := by
  obtain ⟨u, sv, hrun⟩ := run_complete rows (workerOf rows oracles) reorder hperm hnorl
  refine ⟨_, u, sv, hrun, by simp, ?_, ?_⟩
  · rw [getD_map_range rows.length _ k hk]
    unfold mergedRow
    rw [workerOf_allFail rows oracles k ho hmod huid hg hmk]
  · intro j hj _
    rw [getD_map_range rows.length _ j hj]

/-- Witness for C9: ten items, item 7 (index 6) failing with generic
errors on every call, the rest succeeding. -/
theorem claim9_single_failure_isolated_witness :
    (6 < (List.replicate 10 row0).length) ∧
    (∃ res u sv, analyze_all_comments (List.replicate 10 row0) []
        (workerOf (List.replicate 10 row0) w9oracles) (fun l => l) =
      RunResult.completed res u sv true ∧
      res.length = (List.replicate 10 row0).length ∧
      res.getD 6 (defaultRowFor emptyRow) =
        ⟨(List.replicate 10 row0).getD 6 emptyRow, "絵文字のみ", "どちらでもない", none⟩ ∧
      (∀ j, j < (List.replicate 10 row0).length → j ≠ 6 →
        res.getD j (defaultRowFor emptyRow) =
          mergedRow (List.replicate 10 row0) (workerOf (List.replicate 10 row0) w9oracles) j)) :=
  ⟨by decide,
   claim9_single_failure_isolated (List.replicate 10 row0) w9oracles (fun l => l) 6
     (by decide) (fun l => List.Perm.refl l) rfl rfl rfl rfl rfl (by decide)⟩

/-! ### Checkpoint-cadence lemmas (for the amended C8) -/

/-- Every key present in the dictionary looks up to a value. -/
theorem lookup_isSome_of_mem_keys (d : List (ℕ × ResultRow)) (x : ℕ)
    (hx : x ∈ d.map Prod.fst) : ∃ v, List.lookup x d = some v := by
  induction d with
  | nil => simp at hx
  | cons p t ih =>
    obtain ⟨k, v⟩ := p
    by_cases hxk : x = k
    · subst hxk
      exact ⟨v, by simp [List.lookup]⟩
    · obtain ⟨w, hw⟩ := ih (by
        rcases (by simpa using hx : x = k ∨ x ∈ t.map Prod.fst) with h | h
        · exact absurd h hxk
        · exact h)
      exact ⟨w, by simp [List.lookup, beq_false_of_ne_nat x k hxk, hw]⟩

/-- A `filterMap` whose function succeeds on every element preserves length. -/
theorem filterMap_length_all_some (g : ℕ → Option ResultRow) (l : List ℕ)
    (h : ∀ x ∈ l, (g x).isSome) : (l.filterMap g).length = l.length := by
  induction l with
  | nil => rfl
  | cons a t ih =>
    obtain ⟨v, hv⟩ := Option.isSome_iff_exists.mp (h a (by simp))
    simp [List.filterMap_cons, hv, ih (fun x hx => h x (by simp [hx]))]

/-- The sorted extraction returns one row per dictionary entry. -/
theorem sortedResults_length (d : List (ℕ × ResultRow)) :
    (sortedResults d).length = d.length := by
  unfold sortedResults
  rw [filterMap_length_all_some]
  · exact (List.perm_insertionSort _ _).length_eq.trans (List.length_map _ _)
  · intro x hx
    obtain ⟨v, hv⟩ := lookup_isSome_of_mem_keys d x
      ((List.perm_insertionSort _ _).subset hx)
    simp [hv]

/-- Assigning a fresh key grows the dictionary by one entry. -/
theorem dinsert_length_fresh (i : ℕ) (r : ResultRow) (d : List (ℕ × ResultRow))
    (h : i ∉ d.map Prod.fst) : (dinsert i r d).length = d.length + 1 := by
  have hk := keys_dinsert_not_mem i r d h
  have h1 : (dinsert i r d).length = ((dinsert i r d).map Prod.fst).length :=
    (List.length_map _ _).symm
  rw [h1, hk]
  simp

/-- One success-path completion: the cadence save fires exactly when the
incremented counter is a multiple of 10, with the full current (sorted)
result set as payload. -/
theorem processOne_ok_saves (rows : List Row) (worker : ℕ → WorkerOutcome)
    (st : DState) (i : ℕ) (r : ResultRow) (hw : worker i = WorkerOutcome.ok r)
    (hfresh : i ∉ st.resultsDict.map Prod.fst)
    (hlen : st.resultsDict.length = st.completed) :
    ∃ st', processOne rows worker st i = Except.ok st' ∧
      st'.resultsDict = dinsert i (mergedRow rows worker i) st.resultsDict ∧
      st'.completed = st.completed + 1 ∧
      st'.resultsDict.length = st'.completed ∧
      st'.saves.map List.length = st.saves.map List.length ++
        (if (st.completed + 1) % 10 == 0 then [st.completed + 1] else []) := by
  have hmr : mergedRow rows worker i = { r with tokens := none } := by
    unfold mergedRow
    rw [hw]
  have hdl : (dinsert i ({ r with tokens := none } : ResultRow) st.resultsDict).length =
      st.completed + 1 := by
    rw [dinsert_length_fresh _ _ _ hfresh, hlen]
  unfold processOne
  rw [hw]
  dsimp only
  split
  next h10 =>
    refine ⟨_, rfl, by rw [hmr], rfl, ?_, ?_⟩
    · exact hdl
    · simp [sortedResults_length, hdl]
  next h10 =>
    refine ⟨_, rfl, by rw [hmr], rfl, ?_, ?_⟩
    · exact hdl
    · simp

/-- `cadLens` over zero completions. -/
theorem cadLens_zero (c : ℕ) : cadLens c 0 = [] := rfl

/-- Peeling one completion off the cadence interval. -/
theorem cadLens_succ (c m : ℕ) :
    cadLens c (m + 1) =
      (if (c + 1) % 10 == 0 then [c + 1] else []) ++ cadLens (c + 1) m := by
  unfold cadLens
  rw [List.range'_succ (c + 1) m 1]
  by_cases h : (c + 1) % 10 == 0
  · simp only [List.filter_cons, h, if_pos]
    simp [h]
  · simp only [List.filter_cons]
    simp [h]

/-- Splitting the cadence interval. -/
theorem cadLens_append (c m n : ℕ) :
    cadLens c (m + n) = cadLens c m ++ cadLens (c + m) n := by
  unfold cadLens
  have hr : List.range' (c + 1) (m + n) =
      List.range' (c + 1) m ++ List.range' (c + 1 + m) n := by
    rw [Nat.add_comm m n, ← List.range'_append_1]
  rw [hr, List.filter_append]
  have : c + 1 + m = c + m + 1 := by omega
  rw [this]

/-- Saves produced by a run of success-path completions over fresh keys. -/
theorem foldlM_processOne_saves (rows : List Row) (worker : ℕ → WorkerOutcome) :
    ∀ (L : List ℕ) (st : DState),
      (∀ i ∈ L, ∃ r, worker i = WorkerOutcome.ok r) → L.Nodup →
      (∀ i ∈ L, i ∉ st.resultsDict.map Prod.fst) →
      st.resultsDict.length = st.completed →
      ∃ st', L.foldlM (processOne rows worker) st = Except.ok st' ∧
        st'.resultsDict =
          L.foldl (fun d i => dinsert i (mergedRow rows worker i) d) st.resultsDict ∧
        st'.completed = st.completed + L.length ∧
        st'.resultsDict.length = st'.completed ∧
        st'.saves.map List.length = st.saves.map List.length ++ cadLens st.completed L.length
  | [], st, _, _, _, hlen => ⟨st, rfl, rfl, by simp, hlen, by simp [cadLens_zero]⟩
  | a :: t, st, hok, hnd, hdisj, hlen => by
    obtain ⟨r, hr⟩ := hok a (by simp)
    obtain ⟨st1, hstep, hdict1, hcomp1, hlen1, hsv1⟩ :=
      processOne_ok_saves rows worker st a r hr (hdisj a (by simp)) hlen
    have hkeys1 : st1.resultsDict.map Prod.fst = st.resultsDict.map Prod.fst ++ [a] := by
      rw [hdict1, keys_dinsert_not_mem _ _ _ (hdisj a (by simp))]
    obtain ⟨st', hfold, hdict', hcomp', hlen', hsv'⟩ :=
      foldlM_processOne_saves rows worker t st1 (fun i hi => hok i (by simp [hi]))
        hnd.of_cons
        (fun i hi => by
          rw [hkeys1]
          simp only [List.mem_append, List.mem_singleton]
          push_neg
          exact ⟨hdisj i (by simp [hi]),
            fun heq => (List.nodup_cons.mp hnd).1 (heq ▸ hi)⟩)
        (hcomp1 ▸ hlen1)
    refine ⟨st', ?_, ?_, ?_, hlen', ?_⟩
    · rw [List.foldlM_cons, hstep]
      simpa using hfold
    · rw [hdict', hdict1, List.foldl_cons]
    · rw [hcomp', hcomp1, List.length_cons]
      omega
    · rw [hsv', hsv1, hcomp1, List.length_cons, cadLens_succ]
      simp [List.append_assoc]

/-- Saves produced by the whole batch loop on success-path completions. -/
theorem runBatchesGo_saves (rows : List Row) (worker : ℕ → WorkerOutcome)
    (reorder : List ℕ → List ℕ) :
    ∀ (bs : List (List ℕ)) (st : DState),
      (∀ i ∈ (bs.map reorder).flatten, ∃ r, worker i = WorkerOutcome.ok r) →
      ((bs.map reorder).flatten).Nodup →
      (∀ i ∈ (bs.map reorder).flatten, i ∉ st.resultsDict.map Prod.fst) →
      st.resultsDict.length = st.completed →
      ∃ st', runBatchesGo rows worker reorder bs st = Except.ok st' ∧
        st'.completed = st.completed + ((bs.map reorder).flatten).length ∧
        st'.resultsDict.length = st'.completed ∧
        st'.saves.map List.length = st.saves.map List.length ++
          cadLens st.completed ((bs.map reorder).flatten).length
  | [], st, _, _, _, hlen => ⟨st, rfl, by simp, hlen, by simp [cadLens_zero]⟩
  | b :: bs, st, hok, hnd, hdisj, hlen => by
    have hflat : ((b :: bs).map reorder).flatten =
        reorder b ++ (bs.map reorder).flatten := by simp
    rw [hflat] at hok hnd hdisj
    obtain ⟨hndB, hndR, hdj⟩ := List.nodup_append.mp hnd
    obtain ⟨st1, hstep, hdict1, hcomp1, hlen1, hsv1⟩ :=
      foldlM_processOne_saves rows worker (reorder b) st
        (fun i hi => hok i (by simp [hi])) hndB
        (fun i hi => hdisj i (by simp [hi])) hlen
    have hkeys1 : st1.resultsDict.map Prod.fst =
        st.resultsDict.map Prod.fst ++ reorder b := by
      rw [hdict1, keys_foldl_dinsert _ _ _ hndB (fun i hi => hdisj i (by simp [hi]))]
    obtain ⟨st', hrest, hcomp', hlen', hsv'⟩ :=
      runBatchesGo_saves rows worker reorder bs st1
        (fun i hi => hok i (by simp [hi])) hndR
        (fun i hi => by
          rw [hkeys1]
          simp only [List.mem_append]
          push_neg
          exact ⟨hdisj i (by simp [hi]), fun hiB => hdj hiB hi⟩)
        (hcomp1 ▸ hlen1)
    refine ⟨st', ?_, ?_, hlen', ?_⟩
    · rw [runBatchesGo, hstep]
      exact hrest
    · rw [hcomp', hcomp1, hflat, List.length_append]
      omega
    · rw [hsv', hsv1, hcomp1, hflat, List.length_append, cadLens_append]
      simp [List.append_assoc]

/-- **C8, amended** (see the counterexample for the original wording).
Along any run whose completions all go through the worker-success path
(which includes items defaulted inside the worker), the save callback
receives exactly one payload per multiple of 10 reached by the completion
counter, each holding the full current result set at that moment (its size
equals the completion count), followed by the final full save: the sizes of
the persisted payloads are `[10, 20, ..., N]`. -/
theorem claim8_checkpoint_cadence (rows : List Row) (worker : ℕ → WorkerOutcome)
    (reorder : List ℕ → List ℕ) (hperm : ∀ l, List.Perm (reorder l) l)
    (hok : ∀ i, i < rows.length → ∃ r, worker i = WorkerOutcome.ok r) :
    ∃ res u sv, analyze_all_comments rows [] worker reorder =
      RunResult.completed res u sv true ∧
      res.length = rows.length ∧
      sv.map List.length = cadLens 0 rows.length ++ [rows.length] := by
  have hcomps : List.Perm (((chunk8 (List.range' 0 (rows.length - 0))).map reorder).flatten)
      (List.range rows.length) := by
    have h1 := flatten_map_reorder_perm reorder hperm (chunk8 (List.range' 0 (rows.length - 0)))
    rw [chunk8_flatten] at h1
    simpa [Nat.sub_zero, ← List.range_eq_range'] using h1
  have hnd : (((chunk8 (List.range' 0 (rows.length - 0))).map reorder).flatten).Nodup :=
    (hcomps.nodup_iff).mpr (List.nodup_range _)
  have hN : (((chunk8 (List.range' 0 (rows.length - 0))).map reorder).flatten).length =
      rows.length := by
    simpa using hcomps.length_eq
  obtain ⟨st', hrun, hcomp, hlen, hsv⟩ := runBatchesGo_saves rows worker reorder
    (chunk8 (List.range' 0 (rows.length - 0))) ⟨[], 0, [], TokensInfo.zero⟩
    (fun i hi => hok i (List.mem_range.mp (hcomps.subset hi))) hnd (by simp) rfl
  refine ⟨sortedResults st'.resultsDict, st'.usage,
    st'.saves ++ [sortedResults st'.resultsDict], ?_, ?_, ?_⟩
  · unfold analyze_all_comments
    simp only [List.length_nil]
    rw [hrun]
  · rw [sortedResults_length, hlen, hcomp, hN]
    simp
  · have hslen : (sortedResults st'.resultsDict).length = rows.length := by
      rw [sortedResults_length, hlen, hcomp, hN]
      simp
    rw [List.map_append, hsv, hN]
    simp [hslen]

/-- Witness for the amended C8: 25 items, all succeeding, batches consumed
in reversed order; the persisted payload sizes are 10, 20 and finally 25. -/
theorem claim8_checkpoint_cadence_witness :
    (∀ l : List ℕ, List.Perm l.reverse l) ∧
    (∃ res u sv, analyze_all_comments (List.replicate 25 row0) []
        (fun _ => WorkerOutcome.ok okRow) List.reverse =
      RunResult.completed res u sv true ∧
      res.length = (List.replicate 25 row0).length ∧
      sv.map List.length = [10, 20, 25]) :=
  ⟨fun l => List.reverse_perm l,
   claim8_checkpoint_cadence (List.replicate 25 row0) (fun _ => WorkerOutcome.ok okRow)
     List.reverse (fun l => List.reverse_perm l) (fun _ _ => ⟨okRow, rfl⟩)⟩

/-! ### Rate-limiter window lemmas (for the amended C4) -/

/-- On a sorted queue the front prune removes exactly the entries older
than 60 seconds. -/
theorem prune_eq_filter (now : ℚ) (q : List ℚ) (hs : List.Sorted (· ≤ ·) q) :
    prune now q = q.filter (fun t => decide (now - t ≤ 60)) := by
  induction q with
  | nil => rfl
  | cons a t ih =>
    obtain ⟨ha, hst⟩ := List.sorted_cons.mp hs
    by_cases h : (60 : ℚ) < now - a
    · have hpa : ¬ (now - a ≤ 60) := by linarith
      rw [prune, List.dropWhile_cons]
      simp only [decide_eq_true_eq]
      rw [if_pos h, List.filter_cons]
      simp only [decide_eq_true_eq, hpa, if_false]
      exact ih hst
    · have hpa : now - a ≤ 60 := by linarith
      rw [prune, List.dropWhile_cons]
      simp only [decide_eq_true_eq]
      rw [if_neg h, List.filter_cons]
      simp only [decide_eq_true_eq, hpa, if_pos]
      congr 1
      refine (List.filter_eq_self.mpr ?_).symm
      intro x hx
      have := ha x hx
      simp only [decide_eq_true_eq]
      linarith

/-- Re-pruning at a later instant collapses to a single prune. -/
theorem filter_window_collapse (now1 now2 : ℚ) (h : now1 ≤ now2) (H : List ℚ) :
    (H.filter (fun g => decide (now1 - g ≤ 60))).filter (fun g => decide (now2 - g ≤ 60)) =
      H.filter (fun g => decide (now2 - g ≤ 60)) := by
  rw [List.filter_filter]
  apply List.filter_congr
  intro x _
  by_cases h2 : now2 - x ≤ 60
  · have h1 : now1 - x ≤ 60 := by linarith
    simp [h1, h2]
  · simp [h2]

/-- Filtering with a pointwise weaker predicate keeps no fewer elements. -/
theorem length_filter_le_of_imp (P Q : ℚ → Bool) (H : List ℚ)
    (h : ∀ g ∈ H, P g = true → Q g = true) :
    (H.filter P).length ≤ (H.filter Q).length := by
  induction H with
  | nil => simp
  | cons a t ih =>
    have iht := ih (fun g hg hP => h g (by simp [hg]) hP)
    by_cases hP : P a = true
    · have hQ := h a (by simp) hP
      simp only [List.filter_cons, hP, if_pos, hQ, List.length_cons]
      omega
    · simp only [List.filter_cons, hP, Bool.false_eq_true, if_false]
      by_cases hQ : Q a = true
      · simp only [hQ, if_pos, List.length_cons]
        omega
      · simp only [hQ, Bool.false_eq_true, if_false]
        exact iht

/-- Behaviour of one `wait_if_needed` call on a sorted queue, away from the
exact 60-second boundary: the appended timestamp is no earlier than the
call instant, the new queue is exactly the recorded grants still inside the
closed 60-second window of that timestamp, and the queue either fits under
the capacity bound directly (no-sleep admission below the threshold, or an
empty queue) or did not grow (a sleep always expires at least the oldest
entry). -/
theorem wait_if_needed_spec (maxR : ℕ) (now : ℚ) (q0 : List ℚ)
    (hs : List.Sorted (· ≤ ·) q0) (hok : stepOK now q0 = true) :
    now ≤ (wait_if_needed maxR now q0).1 ∧
    (wait_if_needed maxR now q0).2 =
      q0.filter (fun t => decide ((wait_if_needed maxR now q0).1 - t ≤ 60)) ++
        [(wait_if_needed maxR now q0).1] ∧
    (((wait_if_needed maxR now q0).2).length ≤ wlim maxR ∨
      ((wait_if_needed maxR now q0).2).length ≤ (prune now q0).length) := by
  have hq1 : prune now q0 = q0.filter (fun t => decide (now - t ≤ 60)) :=
    prune_eq_filter now q0 hs
  have hq1s : List.Sorted (· ≤ ·) (prune now q0) := by
    rw [hq1]
    exact List.Pairwise.filter _ hs
  unfold wait_if_needed
  dsimp only
  split
  next hcnt =>
    split
    next oldest_time hhead =>
      have hmem : oldest_time ∈ prune now q0 :=
        List.mem_of_mem_head? (by rw [hhead]; rfl)
      have hold_le : now - oldest_time ≤ 60 := by
        rw [hq1] at hmem
        have := (List.mem_filter.mp hmem).2
        simpa using this
      have hne : now - oldest_time ≠ 60 := by
        unfold stepOK at hok
        rw [hhead] at hok
        simpa using hok
      split
      next helapsed =>
        split
        next hwait =>
          refine ⟨by linarith, ?_, Or.inr ?_⟩
          · rw [prune_eq_filter _ _ hq1s, hq1, filter_window_collapse]
            linarith
          · obtain ⟨tl, htl⟩ : ∃ tl, prune now q0 = oldest_time :: tl := by
              cases hq : prune now q0 with
              | nil =>
                rw [hq] at hhead
                simp at hhead
              | cons a t =>
                rw [hq] at hhead
                simp only [List.head?_cons, Option.some.injEq] at hhead
                exact ⟨t, by rw [hhead]⟩
            rw [htl]
            dsimp only
            unfold prune
            rw [List.dropWhile_cons]
            have hdrop : (60 : ℚ) < now + (60 - (now - oldest_time) + 1 / 10) - oldest_time := by
              linarith
            simp only [decide_eq_true_eq]
            rw [if_pos hdrop]
            have hsub := (List.dropWhile_sublist
              (fun t => decide ((60 : ℚ) < now + (60 - (now - oldest_time) + 1 / 10) - t))
              (l := tl)).length_le
            simp only [List.length_append, List.length_cons, List.length_nil]
            omega
        next hwait =>
          exact absurd (by linarith : (0 : ℚ) < 60 - (now - oldest_time) + 1 / 10) hwait
      next helapsed =>
        exact absurd (lt_of_le_of_ne hold_le hne) helapsed
    next hhead =>
      have hq0 : prune now q0 = [] := List.head?_eq_none_iff.mp hhead
      refine ⟨le_refl now, ?_, Or.inl ?_⟩
      · rw [← hq1, hq0]
      · rw [hq0]
        simp [wlim]
  next hcnt =>
    refine ⟨le_refl now, by rw [hq1], Or.inl ?_⟩
    push_neg at hcnt
    rw [List.length_append, List.length_singleton]
    have hth : (prune now q0).length + 1 ≤ maxR * 95 / 100 := by omega
    calc (prune now q0).length + 1 ≤ maxR * 95 / 100 := hth
      _ ≤ wlim maxR := le_max_left _ _

/-- Appending one grant no later than every history entry and within its
own 60-second window preserves the per-window capacity bound. -/
theorem window_extend (H : List ℚ) (g : ℚ) (M : ℕ)
    (hwin : ∀ t : ℚ, ((H.filter (fun x => decide (t - 60 ≤ x ∧ x ≤ t))).length ≤ M))
    (hq : (((H ++ [g]).filter (fun x => decide (g - x ≤ 60)))).length ≤ M) :
    ∀ t : ℚ, (((H ++ [g]).filter (fun x => decide (t - 60 ≤ x ∧ x ≤ t))).length ≤ M) := by
  intro t
  by_cases hg : t - 60 ≤ g ∧ g ≤ t
  · refine le_trans (length_filter_le_of_imp _ _ _ ?_) hq
    intro x _ hP
    simp only [decide_eq_true_eq] at hP ⊢
    obtain ⟨h1, _⟩ := hP
    linarith [hg.2]
  · rw [List.filter_append]
    have hsing : List.filter (fun x => decide (t - 60 ≤ x ∧ x ≤ t)) [g] = [] := by
      rw [List.filter_cons, if_neg (by simpa using hg)]
      rfl
    rw [hsing, List.append_nil]
    exact hwin t

/-- Main invariant of the rate limiter: along any run of nonnegative
arrival delays in which no call observes the oldest retained timestamp
exactly 60 seconds old, every closed 60-second window contains at most
`wlim maxR = max (95% threshold) 1` granted timestamps. -/
theorem rlRun_window_bound (maxR : ℕ) :
    ∀ (ds : List ℚ) (H : List ℚ) (last : ℚ) (q : List ℚ),
      (∀ d ∈ ds, 0 ≤ d) →
      rlOK maxR last q ds = true →
      List.Sorted (· ≤ ·) H →
      (∀ h ∈ H, h ≤ last) →
      q = H.filter (fun x => decide (last - x ≤ 60)) →
      (∀ t : ℚ, ((H.filter (fun x => decide (t - 60 ≤ x ∧ x ≤ t))).length ≤ wlim maxR)) →
      ∀ t : ℚ, (((H ++ (rlRun maxR last q ds).1).filter
        (fun x => decide (t - 60 ≤ x ∧ x ≤ t))).length ≤ wlim maxR)
  | [], H, last, q, _, _, _, _, _, hwin => by
    intro t
    simpa [rlRun] using hwin t
  | d :: ds, H, last, q, hd, hok, hsort, hle, hq, hwin => by
    have hd0 : (0 : ℚ) ≤ d := hd d (by simp)
    have hnow : last ≤ last + d := by linarith
    have hqs : List.Sorted (· ≤ ·) q := hq ▸ List.Pairwise.filter _ hsort
    rw [rlOK] at hok
    dsimp only at hok
    rw [Bool.and_eq_true] at hok
    obtain ⟨hok1, hok2⟩ := hok
    obtain ⟨hg1, hg2, hg3⟩ := wait_if_needed_spec maxR (last + d) q hqs hok1
    have hlastg : last ≤ (wait_if_needed maxR (last + d) q).1 := le_trans hnow hg1
    have hfilt : ∀ c : ℚ, last ≤ c →
        q.filter (fun x => decide (c - x ≤ 60)) = H.filter (fun x => decide (c - x ≤ 60)) := by
      intro c hc
      rw [hq]
      exact filter_window_collapse last c hc H
    have hq'' : (wait_if_needed maxR (last + d) q).2 =
        (H ++ [(wait_if_needed maxR (last + d) q).1]).filter
          (fun x => decide ((wait_if_needed maxR (last + d) q).1 - x ≤ 60)) := by
      rw [List.filter_append, hg2, hfilt _ hlastg]
      congr 1
      simp only [List.filter_cons, List.filter_nil]
      norm_num
    have hsort' : List.Sorted (· ≤ ·) (H ++ [(wait_if_needed maxR (last + d) q).1]) := by
      apply List.pairwise_append.mpr
      refine ⟨hsort, List.pairwise_singleton _ _, ?_⟩
      intro a ha b hb
      rw [List.mem_singleton] at hb
      subst hb
      exact le_trans (hle a ha) hlastg
    have hle' : ∀ h ∈ H ++ [(wait_if_needed maxR (last + d) q).1],
        h ≤ (wait_if_needed maxR (last + d) q).1 := by
      intro h hh
      rcases List.mem_append.mp hh with h1 | h1
      · exact le_trans (hle h h1) hlastg
      · rw [List.mem_singleton] at h1
        subst h1
        exact le_refl _
    have hqlen : (((H ++ [(wait_if_needed maxR (last + d) q).1]).filter
        (fun x => decide ((wait_if_needed maxR (last + d) q).1 - x ≤ 60))).length ≤
          wlim maxR) := by
      rw [← hq'']
      rcases hg3 with h | h
      · exact h
      · refine le_trans h ?_
        rw [prune_eq_filter _ _ hqs, hq, filter_window_collapse last _ hnow H]
        refine le_trans (length_filter_le_of_imp _ _ _ ?_) (hwin (last + d))
        intro x hx hP
        simp only [decide_eq_true_eq] at hP ⊢
        exact ⟨by linarith, le_trans (hle x hx) hnow⟩
    have hwin' := window_extend H (wait_if_needed maxR (last + d) q).1 (wlim maxR) hwin hqlen
    have hrec := rlRun_window_bound maxR ds (H ++ [(wait_if_needed maxR (last + d) q).1])
      (wait_if_needed maxR (last + d) q).1 (wait_if_needed maxR (last + d) q).2
      (fun x hx => hd x (by simp [hx])) hok2 hsort' hle' hq'' hwin'
    intro t
    have hsplit : H ++ (rlRun maxR last q (d :: ds)).1 =
        (H ++ [(wait_if_needed maxR (last + d) q).1]) ++
          (rlRun maxR (wait_if_needed maxR (last + d) q).1
            (wait_if_needed maxR (last + d) q).2 ds).1 := by
      rw [rlRun]
      dsimp only
      rw [List.append_cons]
    rw [hsplit]
    exact hrec t

/-- **C4, amended** (see the counterexample for the original wording).
For a monitor with ceiling `maxR ≥ 1`, along any serialized sequence of
`wait_if_needed` calls (arrival delays nonnegative) in which no call
observes the oldest retained timestamp exactly 60 seconds old at the sleep
check, every closed 60-second window contains at most `maxR` granted
timestamps.  `wait_if_needed` itself is a total function: it never raises,
it only sleeps.  At the exact boundary the bound can fail, because the
prune uses the strict test `now - t > 60` while the sleep guard requires
`elapsed < 60`. -/
theorem claim4_rate_ceiling (maxR : ℕ) (hm : 1 ≤ maxR) (t0 : ℚ) (ds : List ℚ)
    (hd : ∀ d ∈ ds, 0 ≤ d) (hok : rlOK maxR t0 [] ds = true) (t : ℚ) :
    ((rlGrants maxR t0 ds).filter (fun g => decide (t - 60 ≤ g ∧ g ≤ t))).length ≤ maxR := by
  have hb := rlRun_window_bound maxR ds [] t0 [] hd hok List.sorted_nil
    (by simp) (by simp) (by simp) t
  have hw : wlim maxR ≤ maxR := by
    unfold wlim
    apply max_le
    · have h1 : maxR * 95 ≤ maxR * 100 := Nat.mul_le_mul_left maxR (by norm_num)
      calc maxR * 95 / 100 ≤ maxR * 100 / 100 := Nat.div_le_div_right h1
        _ = maxR := Nat.mul_div_cancel maxR (by norm_num)
    · exact hm
  unfold rlGrants
  refine le_trans ?_ hw
  simpa using hb

/-- Witness for the amended C4: ceiling 1, calls at times 0 and 30; the
second call sleeps until the first grant expires, and no 60-second window
ever holds more than one grant. -/
theorem claim4_rate_ceiling_witness :
    (1 ≤ 1) ∧ (∀ d ∈ ([0, 30] : List ℚ), 0 ≤ d) ∧ rlOK 1 0 [] [0, 30] = true ∧
    ((rlGrants 1 0 [0, 30]).filter (fun g => decide ((30 : ℚ) - 60 ≤ g ∧ g ≤ 30))).length ≤ 1 :=
  ⟨le_refl 1, by norm_num, by norm_num [rlOK, stepOK, wait_if_needed, prune],
   claim4_rate_ceiling 1 (le_refl 1) 0 [0, 30] (by norm_num)
     (by norm_num [rlOK, stepOK, wait_if_needed, prune]) 30⟩

/-- **C10** (confirmed).  On an empty input with no prior checkpoint the run
consults no worker at all (the worker and completion order are universally
quantified), returns an empty result sequence with zero usage totals, and
still issues exactly one save with the empty list followed by the clear
action. -/
theorem claim10_empty_input (worker : ℕ → WorkerOutcome) (reorder : List ℕ → List ℕ) :
    analyze_all_comments [] [] worker reorder =
      RunResult.completed [] TokensInfo.zero [[]] true :=
  rfl

end AIAnalyzer
